import Mathlib

/-!
# Code Adventure Game: the submission engine of `server/index.js`

A shallow embedding of the handler of `POST /api/submit` and of the tables it
reads and writes, followed by theorems about it.

Modelling conventions.

* A JavaScript string is a list of Unicode characters (`String` in records,
  `List Char` inside the string functions); strings holding unpaired
  surrogates are outside the model.
* `String.prototype.trim` removes the ECMAScript `WhiteSpace` and
  `LineTerminator` code points from both ends.
* `String.prototype.toLowerCase` is the Unicode default case conversion: every
  character is replaced by its lowercase mapping independently of its
  neighbours, except U+03A3 (capital sigma), whose result depends on the
  `Final_Sigma` condition of `SpecialCasing.txt`.  The character database is
  not part of the repository, so the mapping and the condition are parameters
  (`CaseTables`).
* An SQLite table is the list of its rows in rowid order; `db.get` returns the
  first matching row.  Column values are unbounded integers.
* The statements of one handler run in the order in which they are issued and
  every storage call succeeds; `submitWithStorage` is the handler with
  statements that may fail, and `runStatements` executes the statements of
  concurrent requests in an arbitrary order.
* Of the client, the functions `handleSubmit` of `GameLevel.js` and
  `getProgressForLanguage`, `getNextLevel` and `fetchUserData` of
  `Dashboard.js` are embedded, with the React state as arguments.  The
  percentage of `getProgressForLanguage` is computed in binary64 floating
  point, as `toDouble` rounds it.
-/

namespace CodeAdventure

/-! ## Strings -/

/-- Code points removed by `String.prototype.trim`: `WhiteSpace` (TAB, VT, FF,
ZWNBSP and the category `Zs`) and `LineTerminator` (LF, CR, LS, PS). -/
def isTrimChar (c : Char) : Bool :=
  let n := c.toNat
  n == 0x09 || n == 0x0A || n == 0x0B || n == 0x0C || n == 0x0D || n == 0x20 ||
  n == 0xA0 || n == 0x1680 || (0x2000 ≤ n && n ≤ 0x200A) || n == 0x2028 ||
  n == 0x2029 || n == 0x202F || n == 0x205F || n == 0x3000 || n == 0xFEFF

/-- The function `String.prototype.trim`. -/
def trim (s : List Char) : List Char :=
  ((s.dropWhile isTrimChar).reverse.dropWhile isTrimChar).reverse

/-- Greek capital letter sigma, U+03A3. -/
def capitalSigma : Char := Char.ofNat 0x3A3

/-- Greek small letter sigma, U+03C3. -/
def smallSigma : Char := Char.ofNat 0x3C3

/-- Greek small letter final sigma, U+03C2. -/
def finalSmallSigma : Char := Char.ofNat 0x3C2

/-- The part of the Unicode character database that `toLowerCase` consults.
`lower` is the context-free lowercase mapping of a character (one or more
characters long); `finalSigma before after` is the `Final_Sigma` condition for
a capital sigma standing between `before` (nearest character first) and
`after`. -/
structure CaseTables where
  lower : Char → List Char
  finalSigma : List Char → List Char → Bool
  lower_ne_nil : ∀ c, lower c ≠ []

/-- Lowercase image of the single character `c` standing between `before`
(nearest first) and `after`. -/
def lowerAt (T : CaseTables) (before : List Char) (c : Char) (after : List Char) : List Char :=
  if c = capitalSigma then
    (if T.finalSigma before after then [finalSmallSigma] else [smallSigma])
  else T.lower c

/-- Lowercasing of the rest of a string whose already processed part is
`before` (nearest character first). -/
def toLowerCaseFrom (T : CaseTables) : List Char → List Char → List Char
  | _, [] => []
  | before, c :: rest => lowerAt T before c rest ++ toLowerCaseFrom T (c :: before) rest

/-- The function `String.prototype.toLowerCase`. -/
def toLowerCase (T : CaseTables) (s : List Char) : List Char :=
  toLowerCaseFrom T [] s

/-- The function `String.prototype.includes` with the default start position:
the needle occurs at some offset of the haystack. -/
def includes : List Char → List Char → Bool
  | [], needle => needle.isEmpty
  | h :: t, needle => needle.isPrefixOf (h :: t) || includes t needle

/-- The expression
`solution.trim().toLowerCase().includes(level.solution.trim().toLowerCase())`
of the submit handler. -/
def isCorrect (T : CaseTables) (solution levelSolution : String) : Bool :=
  includes (toLowerCase T (trim solution.data)) (toLowerCase T (trim levelSolution.data))

/-! ### A concrete fragment of the character database -/

/-- Characters with the property `Cased` among U+0000..U+007F and
U+0391..U+03CE: the Basic Latin letters and every assigned Greek character of
that range (U+03A2 is unassigned). -/
def sampleCased (c : Char) : Bool :=
  let n := c.toNat
  (0x41 ≤ n && n ≤ 0x5A) || (0x61 ≤ n && n ≤ 0x7A) ||
  (0x391 ≤ n && n ≤ 0x3A1) || (0x3A3 ≤ n && n ≤ 0x3CE)

/-- Characters with the property `Case_Ignorable` among U+0000..U+007F:
apostrophe, full stop, colon, circumflex accent and grave accent. -/
def sampleCaseIgnorable (c : Char) : Bool :=
  let n := c.toNat
  n == 0x27 || n == 0x2E || n == 0x3A || n == 0x5E || n == 0x60

/-- A cased letter follows, after any number of case-ignorable characters. -/
def sampleCasedAhead : List Char → Bool
  | [] => false
  | c :: rest =>
    if sampleCaseIgnorable c then sampleCasedAhead rest else sampleCased c

/-- The `Final_Sigma` condition: preceded by a cased letter and not followed by
one, case-ignorable characters being skipped on both sides. -/
def sampleFinalSigma (before after : List Char) : Bool :=
  sampleCasedAhead before && !sampleCasedAhead after

/-- Lowercase mapping of the Basic Latin capitals and of the Greek capitals
U+0391..U+03A1 and U+03A3..U+03AB, each 32 code points below its small
letter; every other character is mapped to itself. -/
def sampleLower (c : Char) : List Char :=
  let n := c.toNat
  if (0x41 ≤ n && n ≤ 0x5A) || (0x391 ≤ n && n ≤ 0x3A1) || (0x3A3 ≤ n && n ≤ 0x3AB) then
    [Char.ofNat (n + 32)]
  else [c]

/-- Case tables that agree with the Unicode character database on Basic Latin
(U+0000..U+007F) and on the Greek characters U+0391..U+03CE; outside these
ranges characters are left unchanged and count as uncased. -/
def sampleTables : CaseTables where
  lower := sampleLower
  finalSigma := sampleFinalSigma
  lower_ne_nil := by
    intro c
    unfold sampleLower
    dsimp only
    split <;> simp

/-! ## Tables -/

/-- A row of the table `users`. -/
structure User where
  id : Int
  username : String
  email : String
  password : String
  level : Int
  score : Int
  created_at : Nat
deriving DecidableEq

/-- A row of the table `progress`. -/
structure Progress where
  id : Int
  user_id : Int
  language : String
  level : Int
  completed : Bool
  score : Int
  completed_at : Nat
deriving DecidableEq

/-- A row of the table `levels`; `hints` is the only nullable text column. -/
structure Level where
  id : Int
  language : String
  level_number : Int
  title : String
  description : String
  challenge : String
  solution : String
  hints : Option String
  points : Int
deriving DecidableEq

/-- The database: the three tables in rowid order and, for the two
`AUTOINCREMENT` tables written here, the largest rowid handed out so far
(the entry of `sqlite_sequence`). -/
structure Db where
  users : List User
  progress : List Progress
  levels : List Level
  progressSeq : Int
  levelsSeq : Int
deriving DecidableEq

/-- The rowid an `AUTOINCREMENT` table gives to a new row: one more than the
largest rowid that has ever been in the table. -/
def nextRowid (seq : Int) (ids : List Int) : Int :=
  ids.foldl max seq + 1

/-- An element of the array `levels` of `insertSampleLevels`. -/
structure LevelSeed where
  language : String
  level_number : Int
  title : String
  description : String
  challenge : String
  solution : String
  hints : String
  points : Int
deriving DecidableEq

/-- The array `levels` of `insertSampleLevels`. -/
def sampleLevels : List LevelSeed :=
  [ { language := "html", level_number := 1, title := "Hello World",
      description := "Create your first HTML page with a heading",
      challenge := "Create an HTML page with an <h1> heading that says \"Hello World\"",
      solution := "<h1>Hello World</h1>",
      hints := "Use the h1 tag to create a main heading", points := 10 },
    { language := "html", level_number := 2, title := "Basic Structure",
      description := "Learn the basic HTML document structure",
      challenge := "Create a complete HTML document with html, head, title, and body tags",
      solution := "<!DOCTYPE html>\n<html>\n<head>\n<title>My Page</title>\n</head>\n<body>\n<h1>Welcome</h1>\n</body>\n</html>",
      hints := "Every HTML document needs DOCTYPE, html, head, and body tags", points := 15 },
    { language := "css", level_number := 1, title := "Color the World",
      description := "Learn to change text colors in CSS",
      challenge := "Make the text color red using CSS",
      solution := "color: red;",
      hints := "Use the color property to change text color", points := 10 },
    { language := "css", level_number := 2, title := "Size Matters",
      description := "Learn to change font sizes",
      challenge := "Make the text size 24px using CSS",
      solution := "font-size: 24px;",
      hints := "Use the font-size property to change text size", points := 15 },
    { language := "javascript", level_number := 1, title := "First Function",
      description := "Create your first JavaScript function",
      challenge := "Create a function called greet that returns \"Hello!\"",
      solution := "function greet() \x7b\n  return \"Hello!\";\n\x7d",
      hints := "Use the function keyword to create a function", points := 20 },
    { language := "javascript", level_number := 2, title := "Variable Adventure",
      description := "Learn to create and use variables",
      challenge := "Create a variable called name with the value \"Player\"",
      solution := "let name = \"Player\";",
      hints := "Use let to declare a variable", points := 15 } ]

/-- One `INSERT OR IGNORE INTO levels (...) VALUES (...)`: the table has no
uniqueness constraint besides its rowid, so the row is always added. -/
def insertLevel (db : Db) (l : LevelSeed) : Db :=
  let rowid := nextRowid db.levelsSeq (db.levels.map Level.id)
  { db with
    levels := db.levels ++
      [{ id := rowid, language := l.language, level_number := l.level_number,
         title := l.title, description := l.description, challenge := l.challenge,
         solution := l.solution, hints := some l.hints, points := l.points }],
    levelsSeq := rowid }

/-- The function `insertSampleLevels`. -/
def insertSampleLevels (db : Db) : Db :=
  sampleLevels.foldl insertLevel db

/-- The database before the first start of the server: no table has a row. -/
def emptyDb : Db :=
  { users := [], progress := [], levels := [], progressSeq := 0, levelsSeq := 0 }

/-- The function `initializeDatabase`: the `CREATE TABLE IF NOT EXISTS`
statements keep existing tables, then the sample levels are inserted. -/
def initializeDatabase (db : Db) : Db :=
  insertSampleLevels db

/-! ## The handler of `POST /api/submit` -/

/-- The body of a submit request together with the identity put into
`req.user` by the authentication middleware and the clock value that
`CURRENT_TIMESTAMP` yields while the request is served. -/
structure SubmitRequest where
  userId : Int
  language : String
  levelNumber : Int
  solution : String
  now : Nat
deriving DecidableEq

/-- A response: the status code and the keys of the JSON body that can occur
(`none` for a key that is absent; `hint` may be present with the value null). -/
structure Response where
  status : Nat
  error : Option String
  success : Option Bool
  message : Option String
  points : Option Int
  nextLevel : Option Int
  hint : Option (Option String)
deriving DecidableEq

/-- The query `SELECT * FROM levels WHERE language = ? AND level_number = ?`
read with `db.get`. -/
def getLevel (levels : List Level) (language : String) (levelNumber : Int) : Option Level :=
  levels.find? (fun l => l.language == language && l.level_number == levelNumber)

/-- The statement `INSERT OR REPLACE INTO progress (user_id, language, level,
completed, score) VALUES (?, ?, ?, TRUE, ?)`.  The only key of the table is
its rowid, which the statement does not supply, so no existing row conflicts
and a row is added. -/
def insertProgress (db : Db) (userId : Int) (language : String) (level : Int)
    (score : Int) (now : Nat) : Db :=
  let rowid := nextRowid db.progressSeq (db.progress.map Progress.id)
  { db with
    progress := db.progress ++
      [{ id := rowid, user_id := userId, language := language, level := level,
         completed := true, score := score, completed_at := now }],
    progressSeq := rowid }

/-- The statement `UPDATE users SET score = score + ? WHERE id = ?`. -/
def addScore (db : Db) (points : Int) (userId : Int) : Db :=
  { db with
    users := db.users.map
      (fun u => if u.id == userId then { u with score := u.score + points } else u) }

/-- Response of `res.status(404).json` with the error text 'Level not found'. -/
def levelNotFound : Response :=
  { status := 404, error := some "Level not found", success := none, message := none,
    points := none, nextLevel := none, hint := none }

/-- Response of the branch `isCorrect`. -/
def levelCompleted (points nextLevel : Int) : Response :=
  { status := 200, error := none, success := some true, message := some "Level completed!",
    points := some points, nextLevel := some nextLevel, hint := none }

/-- Response of the branch `else`. -/
def tryAgain (hint : Option String) : Response :=
  { status := 200, error := none, success := some false, message := some "Try again!",
    points := none, nextLevel := none, hint := some hint }

/-- The handler of `POST /api/submit` behind `authenticateToken`: the database
after the request and the response. -/
def submit (T : CaseTables) (db : Db) (req : SubmitRequest) : Db × Response :=
  match getLevel db.levels req.language req.levelNumber with
  | none => (db, levelNotFound)
  | some level =>
    if isCorrect T req.solution level.solution then
      let db1 := insertProgress db req.userId req.language req.levelNumber level.points req.now
      let db2 := addScore db1 level.points req.userId
      (db2, levelCompleted level.points (req.levelNumber + 1))
    else
      (db, tryAgain level.hints)

/-- The database after a sequence of submit requests served one after the
other. -/
def runSubmits (T : CaseTables) (db : Db) (reqs : List SubmitRequest) : Db :=
  reqs.foldl (fun d r => (submit T d r).1) db

/-- The column `score` read by `SELECT ... FROM users WHERE id = ?`
(`none` when no user has the id). -/
def scoreOf (db : Db) (userId : Int) : Option Int :=
  (db.users.find? (fun u => u.id == userId)).map User.score

/-- Sum of the column `score` over the completed progress rows of a user. -/
def completedScore (progress : List Progress) (userId : Int) : Int :=
  ((progress.filter (fun p => p.user_id == userId && p.completed)).map Progress.score).sum

/-- The progress rows of a (user_id, language, level) triple. -/
def rowsOf (progress : List Progress) (userId : Int) (language : String) (level : Int) :
    List Progress :=
  progress.filter (fun p => p.user_id == userId && p.language == language && p.level == level)

/-- The row that `POST /api/register` adds for a new user: level and score
take their column defaults 1 and 0. -/
def newUser (id : Int) (username email password : String) (now : Nat) : User :=
  { id := id, username := username, email := email, password := password,
    level := 1, score := 0, created_at := now }

/-- A freshly initialised database in which one user, with id 1, has
registered. -/
def demoDb : Db :=
  { initializeDatabase emptyDb with users := [newUser 1 "player" "player@example.com" "hash" 0] }

/-- Points that one request adds to the score of user `userId`: the points of
the level when the request is by that user, the level exists and the
submission is accepted, and nothing otherwise. -/
def awarded (T : CaseTables) (levels : List Level) (userId : Int) (req : SubmitRequest) : Int :=
  if req.userId = userId then
    match getLevel levels req.language req.levelNumber with
    | some level => if isCorrect T req.solution level.solution then level.points else 0
    | none => 0
  else 0

/-- No progress row exists and every user has the score 0, as after
registrations only. -/
def Fresh (db : Db) : Prop :=
  db.progress = [] ∧ ∀ u ∈ db.users, u.score = 0

instance (db : Db) : Decidable (Fresh db) := by
  unfold Fresh; infer_instance

/-- Every user's cached score is the sum of the scores of the user's
completed progress rows. -/
def Consistent (db : Db) : Prop :=
  ∀ u ∈ db.users, u.score = completedScore db.progress u.id

instance (db : Db) : Decidable (Consistent db) := by
  unfold Consistent; infer_instance

/-- The request of user 1 that submits the canonical text of (html, 1). -/
def helloRequest : SubmitRequest :=
  { userId := 1, language := "html", levelNumber := 1, solution := "<h1>Hello World</h1>",
    now := 1 }

/-- A database whose only level has the empty string as canonical solution. -/
def blankSolutionDb : Db :=
  { users := [newUser 1 "player" "player@example.com" "hash" 0], progress := [],
    levels := [{ id := 1, language := "html", level_number := 1, title := "Empty",
                 description := "", challenge := "", solution := "", hints := none,
                 points := 10 }],
    progressSeq := 0, levelsSeq := 1 }

/-! ## Case variants of a text -/

/-- Two characters are the same letter up to case: they are equal, or neither
is removed by `trim` and both have the same lowercase mapping. -/
def sameLetter (T : CaseTables) (a b : Char) : Bool :=
  a == b || (!isTrimChar a && !isTrimChar b && T.lower a == T.lower b)

/-- The second text is the first one with the case of some letters changed. -/
def caseVariant (T : CaseTables) : List Char → List Char → Bool
  | [], [] => true
  | a :: s, b :: t => sameLetter T a b && caseVariant T s t
  | _, _ => false

/-! ## Storage failures -/

/-- The handler of `POST /api/submit` when the two `db.run` statements of the
accepted branch may fail: `progressOk` and `scoreOk` say whether the INSERT and
the UPDATE take effect; a failed statement leaves its table as it was.  Neither
statement has a callback and the response is sent right after both have been
issued, so the response does not depend on their outcome. -/
def submitWithStorage (T : CaseTables) (db : Db) (req : SubmitRequest)
    (progressOk scoreOk : Bool) : Db × Response :=
  match getLevel db.levels req.language req.levelNumber with
  | none => (db, levelNotFound)
  | some level =>
    if isCorrect T req.solution level.solution then
      let db1 :=
        if progressOk then
          insertProgress db req.userId req.language req.levelNumber level.points req.now
        else db
      let db2 := if scoreOk then addScore db1 level.points req.userId else db1
      (db2, levelCompleted level.points (req.levelNumber + 1))
    else
      (db, tryAgain level.hints)

/-! ## Authentication -/

/-- The payload of a token, as signed by register and login. -/
structure JwtUser where
  id : Int
  username : String
deriving DecidableEq

/-- The expression `authHeader && authHeader.split(' ')[1]`: `none` stands for
undefined.  An absent header gives undefined, the empty header gives the empty
string, any other header the second element of its split at single blanks. -/
def bearerToken (authHeader : Option String) : Option String :=
  match authHeader with
  | none => none
  | some h =>
    if h = "" then some ""
    else ((h.data.splitOn ' ').get? 1).map String.mk

/-- The middleware `authenticateToken`.  `verify` stands for `jwt.verify` with
the secret of the server: the payload of a valid token, `none` for an error.
The result is the status sent by `res.sendStatus`, or the value stored in
`req.user` when `next()` is called. -/
def authenticateToken (verify : String → Option JwtUser) (authHeader : Option String) :
    Except Nat JwtUser :=
  match bearerToken authHeader with
  | none => .error 401
  | some token =>
    if token = "" then .error 401
    else
      match verify token with
      | none => .error 403
      | some user => .ok user

/-- The body of a submit request. -/
structure SubmitBody where
  language : String
  levelNumber : Int
  solution : String
deriving DecidableEq

/-- Response of `res.sendStatus`: a status without a JSON body. -/
def statusOnly (status : Nat) : Response :=
  { status := status, error := none, success := none, message := none, points := none,
    nextLevel := none, hint := none }

/-- The route `app.post('/api/submit', authenticateToken, handler)`: the
handler runs only after the middleware has called `next()`. -/
def postSubmit (verify : String → Option JwtUser) (T : CaseTables) (db : Db)
    (authHeader : Option String) (body : SubmitBody) (now : Nat) : Db × Response :=
  match authenticateToken verify authHeader with
  | .error status => (db, statusOnly status)
  | .ok user =>
    submit T db
      { userId := user.id, language := body.language, levelNumber := body.levelNumber,
        solution := body.solution, now := now }

/-- A verifier that accepts one token, the one of the user of `demoDb`. -/
def demoVerify (token : String) : Option JwtUser :=
  if token = "token-of-player" then some { id := 1, username := "player" } else none

/-! ## Read-only routes -/

/-- The order `ORDER BY score DESC` on user rows. -/
def byScoreDesc (a b : User) : Prop := b.score ≤ a.score

instance : DecidableRel byScoreDesc :=
  fun a b => inferInstanceAs (Decidable (b.score ≤ a.score))

instance : IsTotal User byScoreDesc := ⟨fun a b => le_total b.score a.score⟩

instance : IsTrans User byScoreDesc := ⟨fun _ _ _ hab hbc => le_trans hbc hab⟩

/-- An element of the leaderboard: the columns `username, score, level`. -/
structure LeaderboardEntry where
  username : String
  score : Int
  level : Int
deriving DecidableEq

/-- The user rows selected by
`SELECT ... FROM users ORDER BY score DESC LIMIT 10`; rows with equal scores
stay in rowid order. -/
def leaderboardRows (users : List User) : List User :=
  (users.insertionSort byScoreDesc).take 10

/-- The response of `GET /api/leaderboard`. -/
def leaderboard (users : List User) : List LeaderboardEntry :=
  (leaderboardRows users).map
    (fun u => { username := u.username, score := u.score, level := u.level })

/-- The order `ORDER BY level_number` on level rows. -/
def byLevelNumber (a b : Level) : Prop := a.level_number ≤ b.level_number

instance : DecidableRel byLevelNumber :=
  fun a b => inferInstanceAs (Decidable (a.level_number ≤ b.level_number))

instance : IsTotal Level byLevelNumber :=
  ⟨fun a b => le_total a.level_number b.level_number⟩

instance : IsTrans Level byLevelNumber := ⟨fun _ _ _ hab hbc => le_trans hab hbc⟩

/-- The response of `GET /api/levels/:language`: the rows of
`SELECT * FROM levels WHERE language = ? ORDER BY level_number`, every column
included. -/
def listLevels (levels : List Level) (language : String) : List Level :=
  (levels.filter (fun l => l.language == language)).insertionSort byLevelNumber

/-- A level row with its canonical solution blanked out. -/
def withoutSolution (l : Level) : Level := { l with solution := "" }

/-- Twelve users with the scores 0, 10, ..., 110 in rowid order. -/
def twelveUsers : List User :=
  (List.range 12).map
    (fun n => { newUser (n + 1) "user" "user@example.com" "hash" 0 with score := 10 * n })

/-! ## The progress list -/

/-- Comparison of two texts under the collation BINARY: the first code point
in which they differ decides, and a text precedes its proper extensions. -/
def textLt : List Char → List Char → Bool
  | [], [] => false
  | [], _ :: _ => true
  | _ :: _, [] => false
  | a :: s, b :: t => decide (a.toNat < b.toNat) || (a == b && textLt s t)

/-- The order `ORDER BY language, level` on progress rows. -/
def byLanguageLevel (a b : Progress) : Prop :=
  textLt a.language.data b.language.data = true ∨ (a.language = b.language ∧ a.level ≤ b.level)

instance : DecidableRel byLanguageLevel :=
  fun a b => inferInstanceAs
    (Decidable (textLt a.language.data b.language.data = true ∨
      (a.language = b.language ∧ a.level ≤ b.level)))

instance : IsTotal Progress byLanguageLevel :=
  ⟨fun a b => by
    have tri : ∀ s t : List Char, textLt s t = true ∨ s = t ∨ textLt t s = true := by
      intro s
      induction s with
      | nil => intro t; cases t <;> simp [textLt]
      | cons x s ih =>
        intro t
        cases t with
        | nil => simp [textLt]
        | cons y t =>
          simp only [textLt, Bool.or_eq_true, decide_eq_true_eq, Bool.and_eq_true, beq_iff_eq,
            List.cons.injEq]
          rcases Nat.lt_trichotomy x.toNat y.toNat with h | h | h
          · exact Or.inl (Or.inl h)
          · have hxy : x = y := by
              rw [← Char.ofNat_toNat x, ← Char.ofNat_toNat y, h]
            rcases ih t with h' | h' | h'
            · exact Or.inl (Or.inr ⟨hxy, h'⟩)
            · exact Or.inr (Or.inl ⟨hxy, h'⟩)
            · exact Or.inr (Or.inr (Or.inr ⟨hxy.symm, h'⟩))
          · exact Or.inr (Or.inr (Or.inl h))
    unfold byLanguageLevel
    rcases tri a.language.data b.language.data with h | h | h
    · exact Or.inl (Or.inl h)
    · have hs : a.language = b.language := String.ext h
      rcases le_total a.level b.level with hl | hl
      · exact Or.inl (Or.inr ⟨hs, hl⟩)
      · exact Or.inr (Or.inr ⟨hs.symm, hl⟩)
    · exact Or.inr (Or.inl h)⟩

instance : IsTrans Progress byLanguageLevel :=
  ⟨fun a b c hab hbc => by
    have tr : ∀ s t u : List Char,
        textLt s t = true → textLt t u = true → textLt s u = true := by
      intro s
      induction s with
      | nil =>
        intro t u h1 h2
        cases t with
        | nil => simp [textLt] at h1
        | cons y t =>
          cases u with
          | nil => simp [textLt] at h2
          | cons z u => rfl
      | cons x s ih =>
        intro t u h1 h2
        cases t with
        | nil => simp [textLt] at h1
        | cons y t =>
          cases u with
          | nil => simp [textLt] at h2
          | cons z u =>
            simp only [textLt, Bool.or_eq_true, decide_eq_true_eq, Bool.and_eq_true,
              beq_iff_eq] at h1 h2 ⊢
            rcases h1 with h1 | ⟨e1, h1⟩
            · rcases h2 with h2 | ⟨e2, _⟩
              · exact Or.inl (Nat.lt_trans h1 h2)
              · exact Or.inl (e2 ▸ h1)
            · rcases h2 with h2 | ⟨e2, h2⟩
              · exact Or.inl (e1 ▸ h2)
              · exact Or.inr ⟨e1.trans e2, ih t u h1 h2⟩
    unfold byLanguageLevel at *
    rcases hab with h1 | ⟨h1, l1⟩
    · rcases hbc with h2 | ⟨h2, _⟩
      · exact Or.inl (tr _ _ _ h1 h2)
      · exact Or.inl (h2 ▸ h1)
    · rcases hbc with h2 | ⟨h2, l2⟩
      · exact Or.inl (h1 ▸ h2)
      · exact Or.inr ⟨h1.trans h2, le_trans l1 l2⟩⟩

/-- The response of `GET /api/progress` for the caller `userId`: the rows of
`SELECT * FROM progress WHERE user_id = ? ORDER BY language, level`. -/
def listProgress (progress : List Progress) (userId : Int) : List Progress :=
  (progress.filter (fun p => p.user_id == userId)).insertionSort byLanguageLevel

/-! ## Statements of concurrent requests -/

/-- A statement issued with `db.run` by the accepted branch of the submit
handler; SQLite executes each statement as a whole. -/
inductive Statement where
  | insert (userId : Int) (language : String) (level : Int) (score : Int) (now : Nat)
  | update (points : Int) (userId : Int)
deriving DecidableEq

/-- Execution of one statement. -/
def execStatement (db : Db) : Statement → Db
  | .insert userId language level score now => insertProgress db userId language level score now
  | .update points userId => addScore db points userId

/-- The statements that the handler issues for a request: the INSERT and the
UPDATE when the level exists and the submission is accepted, none otherwise.
The catalog is not written by any request. -/
def statementsOf (T : CaseTables) (levels : List Level) (req : SubmitRequest) : List Statement :=
  match getLevel levels req.language req.levelNumber with
  | none => []
  | some level =>
    if isCorrect T req.solution level.solution then
      [.insert req.userId req.language req.levelNumber level.points req.now,
       .update level.points req.userId]
    else []

/-- The database after the statements have been executed in the given order. -/
def runStatements (db : Db) (stmts : List Statement) : Db :=
  stmts.foldl execStatement db

/-- Sum of the column `score` over the completed progress rows of a user,
each (language, level) pair counted once, with the score of its first row. -/
def oncePerLevelScore (progress : List Progress) (userId : Int) : Int :=
  let rows := progress.filter (fun p => p.user_id == userId && p.completed)
  (((rows.map (fun p => (p.language, p.level))).dedup).map
    (fun k => ((rows.find? (fun p => p.language == k.1 && p.level == k.2)).map
      Progress.score).getD 0)).sum

/-- Points that a statement adds to the cached score of the user `userId`. -/
def scoreAdded (userId : Int) : Statement → Int
  | .update points v => if v = userId then points else 0
  | .insert _ _ _ _ _ => 0

/-- Score of the completed progress row that a statement records for the
user `userId`. -/
def scoreRecorded (userId : Int) : Statement → Int
  | .insert v _ _ score _ => if v = userId then score else 0
  | .update _ _ => 0

/-! ## The client: `GameLevel.js` -/

/-- Value of a character as a digit of the given radix, if it is one. -/
def digitValue (radix : Nat) (c : Char) : Option Nat :=
  let n := c.toNat
  let v :=
    if 0x30 ≤ n ∧ n ≤ 0x39 then n - 0x30
    else if 0x61 ≤ n ∧ n ≤ 0x7A then n - 0x61 + 10
    else if 0x41 ≤ n ∧ n ≤ 0x5A then n - 0x41 + 10
    else radix
  if v < radix then some v else none

/-- The longest leading run of digits of the radix, as digit values. -/
def leadingDigits (radix : Nat) : List Char → List Nat
  | [] => []
  | c :: rest =>
    match digitValue radix c with
    | some v => v :: leadingDigits radix rest
    | none => []

/-- The function `parseInt` with one argument: leading whitespace is skipped,
a sign is read, the digits after a `0x` or `0X` are read in radix 16 and any
other digits in radix 10, up to the first character that is no digit; `none`
stands for NaN.  The result is the exact integer (level numbers are far below
the range in which a JavaScript number is inexact). -/
def parseInt (s : String) : Option Int :=
  let t := s.data.dropWhile isTrimChar
  let negative := t.head? == some '-'
  let u := if t.head? == some '-' || t.head? == some '+' then t.tail else t
  let hex := u.take 2 == ['0', 'x'] || u.take 2 == ['0', 'X']
  let radix := if hex then 16 else 10
  let digits := leadingDigits radix (if hex then u.drop 2 else u)
  if digits.isEmpty then none
  else
    let value : Int := (digits.foldl (fun acc d => acc * radix + d) 0 : Nat)
    some (if negative then -value else value)

/-- The route parameters, the token of the context and the React state of the
component `GameLevel` that `handleSubmit` reads or writes. -/
structure GameLevel where
  language : String
  level : String
  token : String
  userCode : String
  isCorrect : Option Bool
  showHint : Bool
  submitting : Bool
  message : String
deriving DecidableEq

/-- A call `fetch('/api/submit', ...)`: the Authorization header and the
fields of the JSON body; a `levelNumber` NaN is sent as null (`none`). -/
structure SubmitFetch where
  url : String
  method : String
  authorization : String
  language : String
  levelNumber : Option Int
  solution : String
deriving DecidableEq

/-- The function `handleSubmit` of `GameLevel` up to the `await` of the
response: the new state and the requests sent. -/
def handleSubmit (st : GameLevel) : GameLevel × List SubmitFetch :=
  if trim st.userCode.data = [] then
    ({ st with message := "Please write some code first!" }, [])
  else
    ({ st with submitting := true, message := "" },
     [{ url := "/api/submit", method := "POST", authorization := "Bearer " ++ st.token,
        language := st.language, levelNumber := parseInt st.level,
        solution := st.userCode }])

/-- Text of an optional JSON value inside a template literal. -/
def showText (v : Option String) : String := v.getD "undefined"

/-- Text of an optional JSON number inside a template literal. -/
def showNumber (v : Option Int) : String :=
  match v with
  | some n => toString n
  | none => "undefined"

/-- The rest of `handleSubmit`, after `response.json()` has yielded `data`:
the new state and the path to which the timer of the success branch navigates
(`none` when no navigation is scheduled).  A number is truthy unless it is 0,
a text unless it is empty. -/
def handleSubmitResponse (st : GameLevel) (data : Response) : GameLevel × Option String :=
  if data.success = some true then
    ({ st with
        isCorrect := some true,
        message := "🎉 " ++ showText data.message ++ " +" ++ showNumber data.points ++ " points!",
        submitting := false },
     some (match data.nextLevel with
       | some n => if n = 0 then "/dashboard" else "/game/" ++ st.language ++ "/" ++ toString n
       | none => "/dashboard"))
  else
    ({ st with
        isCorrect := some false,
        message := "❌ " ++ showText data.message,
        showHint :=
          (match data.hint with
           | some (some h) => if h = "" then st.showHint else true
           | _ => st.showHint),
        submitting := false },
     none)

/-- The submit handler of the server applied to a request of the client sent
by the user `userId`; a `levelNumber` null matches no level. -/
def serveFetch (T : CaseTables) (db : Db) (userId : Int) (now : Nat) (f : SubmitFetch) :
    Db × Response :=
  match f.levelNumber with
  | none => (db, levelNotFound)
  | some n =>
    submit T db
      { userId := userId, language := f.language, levelNumber := n, solution := f.solution,
        now := now }

/-- One click on the submit button of `GameLevel` against the server: the
database afterwards and the path navigated to, if any. -/
def clickSubmit (T : CaseTables) (db : Db) (userId : Int) (now : Nat) (st : GameLevel) :
    Db × Option String :=
  match (handleSubmit st).2 with
  | [] => (db, none)
  | f :: _ =>
    let served := serveFetch T db userId now f
    (served.1, (handleSubmitResponse (handleSubmit st).1 served.2).2)

/-- The component `GameLevel` on the route `/game/html/2` with the canonical
solution of (html, 2) in the editor. -/
def lastHtmlLevel : GameLevel :=
  { language := "html", level := "2", token := "token-of-player",
    userCode := "<!DOCTYPE html>\n<html>\n<head>\n<title>My Page</title>\n</head>\n<body>\n<h1>Welcome</h1>\n</body>\n</html>",
    isCorrect := none, showHint := false, submitting := false, message := "" }

/-! ## The client: `Dashboard.js` -/

/-- The object returned by `getProgressForLanguage`. -/
structure LanguageProgress where
  completed : Nat
  total : Nat
  percentage : Nat
deriving DecidableEq

/-- The quotient `num / den` rounded to the nearest integer, halves to the
even neighbour. -/
def roundHalfEven (num den : Nat) : Nat :=
  let q := num / den
  let r := num % den
  if 2 * r < den then q
  else if den < 2 * r then q + 1
  else if q % 2 = 0 then q else q + 1

/-- The least shift `k`, searched upwards from the given one, for which
`num * 2^k / den` has reached 2^52. -/
def findShift (num den : Nat) : Nat → Nat → Nat
  | 0, k => k
  | fuel + 1, k => if den * 2 ^ 52 ≤ num * 2 ^ k then k else findShift num den fuel (k + 1)

/-- The IEEE 754 binary64 number nearest to the positive rational
`num / den`, as a fraction with a power of two as denominator: a mantissa of
53 bits, ties to the even mantissa.  It stands for the result of one
floating-point operation whose exact result is `num / den` (between 2^-1022
and 2^53). -/
def toDouble (num den : Nat) : Nat × Nat :=
  if num = 0 then (0, 1)
  else
    let k := findShift num den 1100 0
    (roundHalfEven (num * 2 ^ k) den, 2 ^ k)

/-- The expression `Math.round((completed / total) * 100)` for a positive
`total`: the floating-point quotient, its floating-point product with 100,
and the nearest integer of that, halves rounded up. -/
def roundPercent (completed total : Nat) : Nat :=
  let quotient := toDouble completed total
  let product := toDouble (quotient.1 * 100) quotient.2
  (2 * product.1 + product.2) / (2 * product.2)

/-- The function `getProgressForLanguage` of `Dashboard`, with the states
`progress` and `levels` as arguments. -/
def getProgressForLanguage (progress : List Progress) (levels : List Level)
    (language : String) : LanguageProgress :=
  let languageProgress := progress.filter (fun p => p.language == language)
  let totalLevels := (levels.filter (fun l => l.language == language)).length
  let completedLevels := (languageProgress.filter (fun p => p.completed)).length
  { completed := completedLevels,
    total := totalLevels,
    percentage := if totalLevels > 0 then roundPercent completedLevels totalLevels else 0 }

/-- The function `getNextLevel` of `Dashboard`:
`Math.max(...completedLevels, 0) + 1`. -/
def getNextLevel (progress : List Progress) (language : String) : Int :=
  let languageProgress := progress.filter (fun p => p.language == language && p.completed)
  let completedLevels := languageProgress.map Progress.level
  completedLevels.foldr max 0 + 1

/-- The states `progress` and `levels` of `Dashboard` after `fetchUserData`:
the responses of `/api/progress` for the caller and of `/api/levels/html`. -/
def fetchUserData (db : Db) (userId : Int) : List Progress × List Level :=
  (listProgress db.progress userId, listLevels db.levels "html")

/-! ## A played database -/

/-- The request of user 1 that submits the canonical text of (html, 2). -/
def lastHtmlRequest : SubmitRequest :=
  { userId := 1, language := "html", levelNumber := 2, solution := lastHtmlLevel.userCode,
    now := 2 }

/-- The database after user 1 has solved (html, 1), then (html, 2), then
(html, 1) once more. -/
def playedDb : Db :=
  runSubmits sampleTables demoDb [helloRequest, lastHtmlRequest, helloRequest]

/-! ## Lemmas on the string functions -/

theorem includes_iff_occurs (hay needle : List Char) :
    includes hay needle = true ↔ needle <:+: hay := by
  induction hay with
  | nil =>
    cases needle <;> simp [includes]
  | cons h t ih =>
    simp only [includes, Bool.or_eq_true, ih, List.isPrefixOf_iff_prefix]
    rw [List.infix_cons_iff]

theorem dropWhile_keeps_occurrence (p : Char → Bool) (x : Char) (m b : List Char)
    (hx : p x = false) (a : List Char) :
    ∃ a', (a ++ x :: m ++ b).dropWhile p = a' ++ x :: m ++ b := by
  induction a with
  | nil => exact ⟨[], by simp [List.dropWhile, hx]⟩
  | cons y a ih =>
    by_cases hy : p y = true
    · obtain ⟨a', ha'⟩ := ih
      refine ⟨a', ?_⟩
      simpa [List.dropWhile, hy] using ha'
    · refine ⟨y :: a, ?_⟩
      simp [List.dropWhile, hy]

theorem trim_keeps_occurrence (m s : List Char) (hne : m ≠ [])
    (hhead : ∀ x ∈ m.head?, isTrimChar x = false)
    (hlast : ∀ x ∈ m.getLast?, isTrimChar x = false)
    (h : m <:+: s) : m <:+: trim s := by
  obtain ⟨a, b, rfl⟩ := h
  obtain ⟨x, t, rfl⟩ := List.exists_cons_of_ne_nil hne
  obtain ⟨a', ha'⟩ := dropWhile_keeps_occurrence isTrimChar x t b (by simpa using hhead) a
  -- the right end, seen through `reverse`
  obtain ⟨i, z, hz⟩ : ∃ i z, (x :: t).reverse = z :: i := by
    cases hr : (x :: t).reverse with
    | nil => simp at hr
    | cons z i => exact ⟨i, z, rfl⟩
  have hzl : (x :: t).getLast? = some z := by
    rw [List.getLast?_eq_head?_reverse, hz]; rfl
  have hzt : isTrimChar z = false := hlast z (by simp [hzl])
  obtain ⟨b', hb'⟩ := dropWhile_keeps_occurrence isTrimChar z i a'.reverse hzt b.reverse
  have hrev : (a' ++ x :: t ++ b).reverse = b.reverse ++ z :: i ++ a'.reverse := by
    simp only [List.reverse_append, hz, List.append_assoc]
  unfold trim
  rw [ha', hrev, hb']
  refine ⟨a', b'.reverse, ?_⟩
  have : (z :: i).reverse = x :: t := by rw [← hz, List.reverse_reverse]
  simp only [List.reverse_append, List.reverse_reverse, this, List.append_assoc]

theorem trim_occurs (s : List Char) : trim s <:+: s := by
  unfold trim
  have h1 : (s.dropWhile isTrimChar).rdropWhile isTrimChar <:+: s.dropWhile isTrimChar :=
    (List.rdropWhile_prefix _ _).isInfix
  exact h1.trans (List.dropWhile_suffix _).isInfix

theorem trim_head (s : List Char) : ∀ x ∈ (trim s).head?, isTrimChar x = false := by
  intro x hx
  have hpre : trim s <+: s.dropWhile isTrimChar := List.rdropWhile_prefix _ _
  have hne : trim s ≠ [] := by
    intro h; rw [h] at hx; simp at hx
  have hh : (s.dropWhile isTrimChar).head? = some x := by
    obtain ⟨r, hr⟩ := hpre
    rw [← hr, List.head?_append_of_ne_nil _ hne]
    simpa using hx
  have := List.head?_dropWhile_not isTrimChar s
  rw [hh] at this
  simpa using this

theorem trim_last (s : List Char) : ∀ x ∈ (trim s).getLast?, isTrimChar x = false := by
  intro x hx
  have hx' : (trim s).getLast? = some x := by simpa using hx
  unfold trim at hx'
  rw [List.getLast?_reverse] at hx'
  have := List.head?_dropWhile_not isTrimChar (s.dropWhile isTrimChar).reverse
  rw [hx'] at this
  simpa using this

theorem trim_occurs_trim (c s : List Char) (h : c <:+: s) : trim c <:+: trim s := by
  by_cases hne : trim c = []
  · rw [hne]; exact List.nil_infix
  · exact trim_keeps_occurrence (trim c) s hne (trim_head c) (trim_last c) ((trim_occurs c).trans h)

theorem lowerAt_ne_nil (T : CaseTables) (before : List Char) (c : Char) (after : List Char) :
    lowerAt T before c after ≠ [] := by
  unfold lowerAt
  split
  · split <;> simp
  · exact T.lower_ne_nil c

theorem toLowerCaseFrom_eq_nil (T : CaseTables) (before s : List Char) :
    toLowerCaseFrom T before s = [] ↔ s = [] := by
  cases s with
  | nil => simp [toLowerCaseFrom]
  | cons c rest => simp [toLowerCaseFrom, lowerAt_ne_nil]

theorem toLowerCaseFrom_no_sigma (T : CaseTables) (y : List Char) (hy : capitalSigma ∉ y) :
    ∀ b b' z, toLowerCaseFrom T b (y ++ z) =
      toLowerCaseFrom T b' y ++ toLowerCaseFrom T (y.reverse ++ b) z := by
  induction y with
  | nil => intro b b' z; simp [toLowerCaseFrom]
  | cons c y ih =>
    intro b b' z
    have hc : c ≠ capitalSigma := fun h => hy (by simp [h])
    have hy' : capitalSigma ∉ y := fun h => hy (by simp [h])
    rw [List.cons_append]
    simp only [toLowerCaseFrom, lowerAt, hc, if_false, List.append_assoc,
      List.reverse_cons, List.singleton_append]
    rw [ih hy' (c :: b) (c :: b') z]

theorem toLowerCaseFrom_append (T : CaseTables) (x : List Char) :
    ∀ b w, ∃ l, toLowerCaseFrom T b (x ++ w) = l ++ toLowerCaseFrom T (x.reverse ++ b) w := by
  induction x with
  | nil => intro b w; exact ⟨[], by simp⟩
  | cons c x ih =>
    intro b w
    obtain ⟨l, hl⟩ := ih (c :: b) w
    refine ⟨lowerAt T b c (x ++ w) ++ l, ?_⟩
    rw [List.cons_append]
    simp only [toLowerCaseFrom, hl, List.append_assoc, List.reverse_cons,
      List.singleton_append]

theorem toLowerCase_occurs_no_sigma (T : CaseTables) (y s : List Char)
    (hy : capitalSigma ∉ y) (h : y <:+: s) : toLowerCase T y <:+: toLowerCase T s := by
  obtain ⟨x, z, rfl⟩ := h
  unfold toLowerCase
  obtain ⟨l, hl⟩ := toLowerCaseFrom_append T x [] (y ++ z)
  rw [List.append_assoc, hl, toLowerCaseFrom_no_sigma T y hy _ [] z]
  exact ⟨l, toLowerCaseFrom T (y.reverse ++ (x.reverse ++ [])) z, by simp⟩

/-! ## Lemmas on the handler -/

theorem submit_of_none (T : CaseTables) (db : Db) (req : SubmitRequest)
    (h : getLevel db.levels req.language req.levelNumber = none) :
    submit T db req = (db, levelNotFound) := by
  simp [submit, h]

theorem submit_of_correct (T : CaseTables) (db : Db) (req : SubmitRequest) (lvl : Level)
    (h : getLevel db.levels req.language req.levelNumber = some lvl)
    (hc : isCorrect T req.solution lvl.solution = true) :
    submit T db req =
      (addScore (insertProgress db req.userId req.language req.levelNumber lvl.points req.now)
          lvl.points req.userId,
        levelCompleted lvl.points (req.levelNumber + 1)) := by
  simp [submit, h, hc]

theorem submit_of_wrong (T : CaseTables) (db : Db) (req : SubmitRequest) (lvl : Level)
    (h : getLevel db.levels req.language req.levelNumber = some lvl)
    (hc : isCorrect T req.solution lvl.solution = false) :
    submit T db req = (db, tryAgain lvl.hints) := by
  simp [submit, h, hc]

theorem submit_levels (T : CaseTables) (db : Db) (req : SubmitRequest) :
    (submit T db req).1.levels = db.levels := by
  unfold submit
  split
  · rfl
  · split <;> rfl

theorem scoreOf_addScore (db : Db) (points userId v : Int) :
    scoreOf (addScore db points userId) v =
      if v = userId then (scoreOf db v).map (· + points) else scoreOf db v := by
  unfold scoreOf addScore
  simp only
  induction db.users with
  | nil => simp
  | cons u us ih =>
    by_cases huv : u.id = v
    · by_cases hvu : v = userId
      · subst hvu
        simp [List.find?, huv]
      · have : ¬ u.id = userId := fun h => hvu (huv ▸ h)
        simp [List.find?, huv, hvu, this]
    · have hne : ∀ w : User, w.id = u.id → (w.id == v) = false := by
        intro w hw; simp [hw, huv]
      by_cases hu : u.id = userId
      · simp only [List.map_cons, hu, beq_self_eq_true, if_true]
        rw [List.find?_cons_of_neg _ (by simp [hu ▸ huv]),
          List.find?_cons_of_neg _ (by simp [huv])]
        simpa [hu] using ih
      · simp only [List.map_cons, beq_iff_eq, hu, if_false]
        rw [List.find?_cons_of_neg _ (by simp [huv]),
          List.find?_cons_of_neg _ (by simp [huv])]
        simpa using ih

theorem scoreOf_insertProgress (db : Db) (userId : Int) (language : String) (level score : Int)
    (now : Nat) (v : Int) :
    scoreOf (insertProgress db userId language level score now) v = scoreOf db v := rfl

theorem scoreOf_submit (T : CaseTables) (db : Db) (req : SubmitRequest) (v : Int) :
    scoreOf (submit T db req).1 v = (scoreOf db v).map (· + awarded T db.levels v req) := by
  unfold awarded
  cases hl : getLevel db.levels req.language req.levelNumber with
  | none =>
    rw [submit_of_none T db req hl]
    simp
  | some lvl =>
    cases hc : isCorrect T req.solution lvl.solution with
    | false =>
      rw [submit_of_wrong T db req lvl hl hc]
      simp [hc]
    | true =>
      rw [submit_of_correct T db req lvl hl hc]
      simp only [scoreOf_addScore, scoreOf_insertProgress]
      by_cases hv : v = req.userId
      · simp [hv, hc]
      · have : ¬ req.userId = v := fun h => hv h.symm
        simp [hv, this]

theorem runSubmits_cons (T : CaseTables) (db : Db) (r : SubmitRequest)
    (rs : List SubmitRequest) :
    runSubmits T db (r :: rs) = runSubmits T (submit T db r).1 rs := rfl

theorem completedScore_append (ps : List Progress) (row : Progress) (userId : Int) :
    completedScore (ps ++ [row]) userId =
      completedScore ps userId +
        (if row.user_id = userId ∧ row.completed = true then row.score else 0) := by
  unfold completedScore
  by_cases h : row.user_id = userId ∧ row.completed = true
  · simp [List.filter_append, List.filter_cons, h.1, h.2]
  · rw [if_neg h]
    have : (row.user_id == userId && row.completed) = false := by
      rw [Bool.and_eq_false_iff]
      by_cases h1 : row.user_id = userId
      · right
        have : ¬ row.completed = true := fun h2 => h ⟨h1, h2⟩
        simpa using this
      · left; simpa using h1
    simp [List.filter_append, List.filter_cons, this]

theorem submit_consistent (T : CaseTables) (db : Db) (req : SubmitRequest)
    (h : Consistent db) : Consistent (submit T db req).1 := by
  cases hl : getLevel db.levels req.language req.levelNumber with
  | none => rw [submit_of_none T db req hl]; exact h
  | some lvl =>
    cases hc : isCorrect T req.solution lvl.solution with
    | false => rw [submit_of_wrong T db req lvl hl hc]; exact h
    | true =>
      rw [submit_of_correct T db req lvl hl hc]
      intro u hu
      simp only [addScore, insertProgress, List.mem_map] at hu
      obtain ⟨u0, hu0, rfl⟩ := hu
      have h0 := h u0 hu0
      simp only [addScore, insertProgress, completedScore_append]
      by_cases hid : u0.id = req.userId
      · simp only [hid, beq_self_eq_true, if_true, and_self, add_left_inj]
        rw [h0, hid]
      · have : ¬ req.userId = u0.id := fun e => hid e.symm
        simp [hid, this, h0]

theorem fresh_consistent (db : Db) (h : Fresh db) : Consistent db := by
  intro u hu
  rw [h.2 u hu, h.1]
  rfl

/-! ## The claims -/

/-- C1: the evaluator of `POST /api/submit` accepts a submitted text exactly
when lowercase(trim(canonical)) is a contiguous substring of
lowercase(trim(submitted)); the verdict the handler reports is this function
of the two texts alone, whatever the database holds. -/
theorem isCorrect_iff_substring (T : CaseTables) (db : Db) (req : SubmitRequest) :
    (∀ c : String, isCorrect T req.solution c = true ↔
      ∃ p q, toLowerCase T (trim req.solution.data) = p ++ toLowerCase T (trim c.data) ++ q) ∧
    (submit T db req).2.success =
      (getLevel db.levels req.language req.levelNumber).map
        (fun l => isCorrect T req.solution l.solution) := by
  refine ⟨fun c => ?_, ?_⟩
  · unfold isCorrect
    rw [includes_iff_occurs]
    constructor
    · rintro ⟨p, q, h⟩; exact ⟨p, q, h.symm⟩
    · rintro ⟨p, q, h⟩; exact ⟨p, q, h.symm⟩
  · cases hl : getLevel db.levels req.language req.levelNumber with
    | none => rw [submit_of_none T db req hl]; rfl
    | some lvl =>
      cases hc : isCorrect T req.solution lvl.solution with
      | false => rw [submit_of_wrong T db req lvl hl hc]; simp [tryAgain, hc]
      | true => rw [submit_of_correct T db req lvl hl hc]; simp [levelCompleted, hc]

/-- C2 fails on the code: the same accepted submission for (html, 1) sent twice
leaves the score 20, sent once it leaves 10, although both sequences cover the
one level (html, 1) worth 10 points. -/
theorem resubmission_adds_points_again :
    scoreOf demoDb 1 = some 0 ∧
    scoreOf (runSubmits sampleTables demoDb [helloRequest]) 1 = some 10 ∧
    scoreOf (runSubmits sampleTables demoDb [helloRequest, helloRequest]) 1 = some 20 := by
  decide

/-- C2 as amended: from any state and after any sequence of submit requests, a
user's cached score has grown by the sum of the point values over all accepted
submissions of that user, each submission counted, also when it repeats a
level. -/
theorem score_grows_by_every_accepted_submission (T : CaseTables) (db : Db)
    (reqs : List SubmitRequest) (userId : Int) :
    scoreOf (runSubmits T db reqs) userId =
      (scoreOf db userId).map (· + (reqs.map (awarded T db.levels userId)).sum) := by
  induction reqs generalizing db with
  | nil => simp [runSubmits]
  | cons r rs ih =>
    rw [runSubmits_cons, ih, scoreOf_submit, submit_levels]
    cases scoreOf db userId with
    | none => rfl
    | some v => simp [add_assoc]

/-- C3: from a state in which no progress row exists and every score is 0,
after every sequence of submit requests each user's cached score equals the sum
of the scores of that user's completed progress rows. -/
theorem score_consistent_with_progress (T : CaseTables) (db : Db)
    (reqs : List SubmitRequest) (h : Fresh db) :
    Consistent (runSubmits T db reqs) := by
  have hc : Consistent db := fresh_consistent db h
  clear h
  induction reqs generalizing db with
  | nil => exact hc
  | cons r rs ih =>
    rw [runSubmits_cons]
    exact ih _ (submit_consistent T db r hc)

/-- Witness of C3 on the freshly initialised database with one user. -/
theorem score_consistent_with_progress_witness :
    Fresh demoDb ∧
    Consistent (runSubmits sampleTables demoDb
      [helloRequest, { helloRequest with solution := "<h2>Hello World</h2>" }, helloRequest,
       { helloRequest with levelNumber := 999 }]) :=
  ⟨by decide, score_consistent_with_progress sampleTables demoDb _ (by decide)⟩

/-- C4 on the code: from the empty progress table, two accepted submissions of
user 1 for (html, 1) leave two progress rows for the triple (1, html, 1). -/
theorem resubmission_adds_second_row :
    demoDb.progress = [] ∧
    (rowsOf (runSubmits sampleTables demoDb [helloRequest]).progress 1 "html" 1).length = 1 ∧
    (rowsOf (runSubmits sampleTables demoDb [helloRequest, helloRequest]).progress
      1 "html" 1).length = 2 := by
  decide

/-- C5 on the code: the accepted submission for (html, 2), the last html level
of the seeded catalog, is answered with nextLevel 3 although the catalog has
no level (html, 3). -/
theorem nextLevel_past_last_level :
    (submit sampleTables demoDb
      { userId := 1, language := "html", levelNumber := 2, now := 1,
        solution := "<!DOCTYPE html>\n<html>\n<head>\n<title>My Page</title>\n</head>\n<body>\n<h1>Welcome</h1>\n</body>\n</html>" }).2
      = levelCompleted 15 3 ∧
    (levelCompleted 15 3).nextLevel = some 3 ∧
    getLevel demoDb.levels "html" 3 = none := by
  decide

/-- C6: for an existing level and an accepted submission the response has
success true and the points of the level, the progress table then holds a row
for (caller, language, levelNumber) with completed true and the score of the
level, and the score of the caller has grown by the points of the level. -/
theorem submit_accepted (T : CaseTables) (db : Db) (req : SubmitRequest) (lvl : Level)
    (hl : getLevel db.levels req.language req.levelNumber = some lvl)
    (hc : isCorrect T req.solution lvl.solution = true) :
    (submit T db req).2.status = 200 ∧
    (submit T db req).2.success = some true ∧
    (submit T db req).2.points = some lvl.points ∧
    (submit T db req).2.nextLevel = some (req.levelNumber + 1) ∧
    (∃ p ∈ (submit T db req).1.progress,
      p.user_id = req.userId ∧ p.language = req.language ∧ p.level = req.levelNumber ∧
      p.completed = true ∧ p.score = lvl.points) ∧
    scoreOf (submit T db req).1 req.userId = (scoreOf db req.userId).map (· + lvl.points) := by
  rw [submit_of_correct T db req lvl hl hc]
  refine ⟨rfl, rfl, rfl, rfl, ?_, ?_⟩
  · refine ⟨{ id := nextRowid db.progressSeq (db.progress.map Progress.id),
               user_id := req.userId, language := req.language, level := req.levelNumber,
               completed := true, score := lvl.points, completed_at := req.now }, ?_, ?_⟩
    · simp only [addScore, insertProgress]
      exact List.mem_append_right _ (List.mem_singleton_self _)
    · exact ⟨rfl, rfl, rfl, rfl, rfl⟩
  · simp [scoreOf_addScore, scoreOf_insertProgress]

/-- Witness of C6, the scenario of the specification: the text
<h1>Hello World</h1> for (html, 1) is answered with success true, points 10 and
nextLevel 2, and the score of the caller rises from 0 to 10. -/
theorem submit_accepted_witness :
    (submit sampleTables demoDb helloRequest).2.success = some true ∧
    (submit sampleTables demoDb helloRequest).2.points = some 10 ∧
    (submit sampleTables demoDb helloRequest).2.nextLevel = some 2 ∧
    scoreOf demoDb 1 = some 0 ∧
    scoreOf (submit sampleTables demoDb helloRequest).1 1 = some 10 := by
  have h := submit_accepted sampleTables demoDb helloRequest
    { id := 1, language := "html", level_number := 1, title := "Hello World",
      description := "Create your first HTML page with a heading",
      challenge := "Create an HTML page with an <h1> heading that says \"Hello World\"",
      solution := "<h1>Hello World</h1>",
      hints := some "Use the h1 tag to create a main heading", points := 10 }
    (by decide) (by decide)
  exact ⟨h.2.1, h.2.2.1, h.2.2.2.1, by decide, by decide⟩

/-- C7: for an existing level and a rejected submission the response has
success false and carries the hint of the level, and the database (progress
rows and users) is the one before the request; the response to an accepted
submission has no hint. -/
theorem submit_rejected (T : CaseTables) (db : Db) (req : SubmitRequest) (lvl : Level)
    (hl : getLevel db.levels req.language req.levelNumber = some lvl) :
    (isCorrect T req.solution lvl.solution = false →
      (submit T db req).2.success = some false ∧
      (submit T db req).2.hint = some lvl.hints ∧
      (submit T db req).1 = db) ∧
    (isCorrect T req.solution lvl.solution = true → (submit T db req).2.hint = none) := by
  constructor
  · intro hc
    rw [submit_of_wrong T db req lvl hl hc]
    exact ⟨rfl, rfl, rfl⟩
  · intro hc
    rw [submit_of_correct T db req lvl hl hc]
    rfl

/-- Witness of C7, the rejection scenario of the specification: the text
<h2>Hello World</h2> for (html, 1). -/
theorem submit_rejected_witness :
    (submit sampleTables demoDb { helloRequest with solution := "<h2>Hello World</h2>" }).2.success
      = some false ∧
    (submit sampleTables demoDb { helloRequest with solution := "<h2>Hello World</h2>" }).2.hint
      = some (some "Use the h1 tag to create a main heading") ∧
    (submit sampleTables demoDb { helloRequest with solution := "<h2>Hello World</h2>" }).1
      = demoDb :=
  (submit_rejected sampleTables demoDb { helloRequest with solution := "<h2>Hello World</h2>" }
    { id := 1, language := "html", level_number := 1, title := "Hello World",
      description := "Create your first HTML page with a heading",
      challenge := "Create an HTML page with an <h1> heading that says \"Hello World\"",
      solution := "<h1>Hello World</h1>",
      hints := some "Use the h1 tag to create a main heading", points := 10 }
    (by decide)).1 (by decide)

/-- C8: when the catalog holds no level for (language, levelNumber), the
response is the status 404 with the error text Level not found and the database
is unchanged; the result is the same for every submitted text and does not
depend on the evaluator. -/
theorem submit_level_not_found (T : CaseTables) (db : Db) (req : SubmitRequest)
    (h : getLevel db.levels req.language req.levelNumber = none) :
    (submit T db req).2.status = 404 ∧
    (submit T db req).2.error = some "Level not found" ∧
    (submit T db req).2.success = none ∧
    (submit T db req).1 = db ∧
    ∀ (T' : CaseTables) (text : String),
      submit T' db { req with solution := text } = (db, levelNotFound) := by
  rw [submit_of_none T db req h]
  refine ⟨rfl, rfl, rfl, rfl, ?_⟩
  intro T' text
  exact submit_of_none T' db { req with solution := text } h

/-- Witness of C8, the scenario of the specification: (html, 999). -/
theorem submit_level_not_found_witness :
    getLevel demoDb.levels "html" 999 = none ∧
    (submit sampleTables demoDb { helloRequest with levelNumber := 999 }).2.status = 404 ∧
    (submit sampleTables demoDb { helloRequest with levelNumber := 999 }).1 = demoDb :=
  have h := submit_level_not_found sampleTables demoDb { helloRequest with levelNumber := 999 }
    (by decide)
  ⟨by decide, h.1, h.2.2.2.1⟩

/-- C9 fails on the code: the handler has no check for a blank submission.  For
a level whose canonical solution is the empty string a blank submission is
accepted and changes the score; for (html, 1) it is answered exactly like the
wrong answer <h2>Hello World</h2>. -/
theorem blank_submission_reaches_evaluator :
    trim "   ".data = [] ∧
    (submit sampleTables blankSolutionDb { helloRequest with solution := "   " }).2.success
      = some true ∧
    scoreOf blankSolutionDb 1 = some 0 ∧
    scoreOf (submit sampleTables blankSolutionDb { helloRequest with solution := "   " }).1 1
      = some 10 ∧
    submit sampleTables demoDb { helloRequest with solution := "   " }
      = submit sampleTables demoDb { helloRequest with solution := "<h2>Hello World</h2>" } := by
  decide

/-- C9 as amended: for a submitted text that is blank after trimming and an
existing level whose canonical solution is not blank after trimming, the
handler answers with the ordinary rejection (success false, Try again!, the
hint of the level) and the database is unchanged. -/
theorem blank_submission_rejected (T : CaseTables) (db : Db) (req : SubmitRequest)
    (lvl : Level) (hb : trim req.solution.data = [])
    (hl : getLevel db.levels req.language req.levelNumber = some lvl)
    (hs : trim lvl.solution.data ≠ []) :
    submit T db req = (db, tryAgain lvl.hints) ∧
    (submit T db req).2.success = some false := by
  have hc : isCorrect T req.solution lvl.solution = false := by
    unfold isCorrect toLowerCase
    rw [hb]
    have hne : toLowerCaseFrom T [] (trim lvl.solution.data) ≠ [] := by
      rw [Ne, toLowerCaseFrom_eq_nil]; exact hs
    cases hx : toLowerCaseFrom T [] (trim lvl.solution.data) with
    | nil => exact absurd hx hne
    | cons a l => simp [toLowerCaseFrom, includes]
  rw [submit_of_wrong T db req lvl hl hc]
  exact ⟨rfl, rfl⟩

/-- Witness of the amended C9: a submission of three blanks for (html, 1). -/
theorem blank_submission_rejected_witness :
    submit sampleTables demoDb { helloRequest with solution := "   " }
      = (demoDb, tryAgain (some "Use the h1 tag to create a main heading")) :=
  (blank_submission_rejected sampleTables demoDb { helloRequest with solution := "   " }
    { id := 1, language := "html", level_number := 1, title := "Hello World",
      description := "Create your first HTML page with a heading",
      challenge := "Create an HTML page with an <h1> heading that says \"Hello World\"",
      solution := "<h1>Hello World</h1>",
      hints := some "Use the h1 tag to create a main heading", points := 10 }
    (by decide) (by decide) (by decide)).1

/-- C10 fails on the code: lowercasing depends on the neighbours of a capital
sigma, so for the canonical text ΑΣ the submission ΑΣ ++ Α, which contains it,
is rejected (ΑΣ becomes ας, ΑΣΑ becomes ασα). -/
theorem containing_submission_rejected :
    ("" ++ "ΑΣ" ++ "Α" : String) = "ΑΣΑ" ∧
    toLowerCase sampleTables (trim "ΑΣ".data) = "ας".data ∧
    toLowerCase sampleTables (trim "ΑΣΑ".data) = "ασα".data ∧
    isCorrect sampleTables ("" ++ "ΑΣ" ++ "Α") "ΑΣ" = false := by
  decide

/-- C10 as amended: for every canonical solution c without the letter capital
sigma and all strings p and q the evaluator accepts p ++ c ++ q (as it accepts
h1 { color: red; } for color: red;); a submission whose normalised text
does not contain the normalised canonical text is rejected (as color: blue; is
for color: red;). -/
theorem substring_sufficiency (T : CaseTables) (p c q : String)
    (hc : capitalSigma ∉ c.data) :
    isCorrect T (p ++ c ++ q) c = true ∧
    (∀ s : String,
      (¬ ∃ a b, toLowerCase T (trim s.data) = a ++ toLowerCase T (trim c.data) ++ b) →
      isCorrect T s c = false) ∧
    isCorrect sampleTables "h1 \x7b color: red; \x7d" "color: red;" = true ∧
    isCorrect sampleTables "color: blue;" "color: red;" = false := by
  refine ⟨?_, ?_, by decide, by decide⟩
  · unfold isCorrect
    rw [includes_iff_occurs]
    have hinf : c.data <:+: (p ++ c ++ q).data := ⟨p.data, q.data, by simp⟩
    have hsig : capitalSigma ∉ trim c.data := fun h => hc ((trim_occurs c.data).subset h)
    exact toLowerCase_occurs_no_sigma T _ _ hsig (trim_occurs_trim _ _ hinf)
  · intro s hs
    unfold isCorrect
    rw [Bool.eq_false_iff, Ne, includes_iff_occurs]
    rintro ⟨a, b, h⟩
    exact hs ⟨a, b, h.symm⟩

/-- Witness of the amended C10: the canonical text color: red; inside a rule. -/
theorem substring_sufficiency_witness :
    isCorrect sampleTables ("h1 \x7b " ++ "color: red;" ++ " \x7d") "color: red;" = true :=
  (substring_sufficiency sampleTables "h1 \x7b " "color: red;" " \x7d" (by decide)).1

/-! ## Lemmas on case variants and surrounding whitespace -/

theorem trim_surrounded (w s w' : List Char) (hw : ∀ ch ∈ w, isTrimChar ch = true)
    (hw' : ∀ ch ∈ w', isTrimChar ch = true) : trim (w ++ s ++ w') = trim s := by
  unfold trim
  rw [List.append_assoc, List.dropWhile_append_of_pos hw]
  congr 1
  induction s with
  | nil =>
    have : w'.dropWhile isTrimChar = [] := List.dropWhile_eq_nil_iff.mpr hw'
    simp [this]
  | cons a s ih =>
    by_cases ha : isTrimChar a = true
    · simpa [List.dropWhile, ha] using ih
    · have hr : ∀ ch ∈ w'.reverse, isTrimChar ch = true := fun ch h =>
        hw' ch (List.mem_reverse.mp h)
      simp only [List.cons_append, List.dropWhile, ha]
      show List.dropWhile isTrimChar ((a :: s) ++ w').reverse = _
      rw [List.reverse_append, List.dropWhile_append_of_pos hr]

theorem sameLetter_trim (T : CaseTables) (a b : Char) (h : sameLetter T a b = true) :
    isTrimChar a = isTrimChar b := by
  unfold sameLetter at h
  simp only [Bool.or_eq_true, beq_iff_eq, Bool.and_eq_true, Bool.not_eq_true'] at h
  rcases h with h | ⟨⟨ha, hb⟩, _⟩
  · rw [h]
  · rw [ha, hb]

theorem sameLetter_lower (T : CaseTables) (a b : Char) (h : sameLetter T a b = true) :
    T.lower a = T.lower b := by
  unfold sameLetter at h
  simp only [Bool.or_eq_true, beq_iff_eq, Bool.and_eq_true, Bool.not_eq_true'] at h
  rcases h with h | ⟨_, hl⟩
  · rw [h]
  · exact hl

theorem caseVariant_forall₂ (T : CaseTables) :
    ∀ s t, caseVariant T s t = true →
      List.Forall₂ (fun a b => sameLetter T a b = true) s t
  | [], [], _ => List.Forall₂.nil
  | a :: s, b :: t, h => by
    simp only [caseVariant, Bool.and_eq_true] at h
    exact List.Forall₂.cons h.1 (caseVariant_forall₂ T s t h.2)
  | [], _ :: _, h => by simp [caseVariant] at h
  | _ :: _, [], h => by simp [caseVariant] at h

theorem forall₂_dropWhile_trim (T : CaseTables) (s t : List Char)
    (h : List.Forall₂ (fun a b => sameLetter T a b = true) s t) :
    List.Forall₂ (fun a b => sameLetter T a b = true)
      (s.dropWhile isTrimChar) (t.dropWhile isTrimChar) := by
  induction h with
  | nil => exact List.Forall₂.nil
  | @cons a b s t hab hst ih =>
    have hp := sameLetter_trim T a b hab
    by_cases ha : isTrimChar a = true
    · have hb : isTrimChar b = true := hp ▸ ha
      simpa [List.dropWhile, ha, hb] using ih
    · have hb : ¬ isTrimChar b = true := hp ▸ ha
      have hcons : List.Forall₂ (fun a b => sameLetter T a b = true) (a :: s) (b :: t) :=
        List.Forall₂.cons hab hst
      simpa [List.dropWhile, ha, hb] using hcons

theorem forall₂_trim (T : CaseTables) (s t : List Char)
    (h : List.Forall₂ (fun a b => sameLetter T a b = true) s t) :
    List.Forall₂ (fun a b => sameLetter T a b = true) (trim s) (trim t) := by
  unfold trim
  rw [List.forall₂_reverse_iff]
  apply forall₂_dropWhile_trim
  rw [List.forall₂_reverse_iff]
  exact forall₂_dropWhile_trim T s t h

theorem toLowerCaseFrom_forall₂ (T : CaseTables) (s t : List Char)
    (h : List.Forall₂ (fun a b => sameLetter T a b = true) s t)
    (hs : capitalSigma ∉ s) (ht : capitalSigma ∉ t) :
    ∀ b b', toLowerCaseFrom T b s = toLowerCaseFrom T b' t := by
  induction h with
  | nil => intro b b'; rfl
  | @cons x y s t hxy _ ih =>
    intro b b'
    have hx : x ≠ capitalSigma := fun e => hs (by simp [e])
    have hy : y ≠ capitalSigma := fun e => ht (by simp [e])
    have hs' : capitalSigma ∉ s := fun e => hs (by simp [e])
    have ht' : capitalSigma ∉ t := fun e => ht (by simp [e])
    simp only [toLowerCaseFrom, lowerAt, hx, hy, if_false]
    rw [sameLetter_lower T x y hxy, ih hs' ht' (x :: b) (y :: b')]

theorem toLowerCase_trim_caseVariant (T : CaseTables) (s t : List Char)
    (h : caseVariant T s t = true) (hs : capitalSigma ∉ s) (ht : capitalSigma ∉ t) :
    toLowerCase T (trim s) = toLowerCase T (trim t) := by
  unfold toLowerCase
  exact toLowerCaseFrom_forall₂ T _ _ (forall₂_trim T s t (caseVariant_forall₂ T s t h))
    (fun e => hs ((trim_occurs s).subset e)) (fun e => ht ((trim_occurs t).subset e)) [] []

/-! ## The claims, continued -/

/-- C11 fails on the code: ΑΣ is ασ with the case of both letters changed, yet
for the canonical text ασ the submission ασ is accepted and the submission ΑΣ
is rejected, because a capital sigma at the end of a word is lowercased to the
final sigma ς. -/
theorem case_change_flips_verdict :
    caseVariant sampleTables "ασ".data "ΑΣ".data = true ∧
    isCorrect sampleTables "ασ" "ασ" = true ∧
    toLowerCase sampleTables (trim "ΑΣ".data) = "ας".data ∧
    isCorrect sampleTables "ΑΣ" "ασ" = false := by
  decide

/-- C11 as amended: the verdict of the evaluator is unchanged when the
submission is surrounded by extra leading or trailing whitespace, for every
submission and every canonical solution without exception; and it is unchanged
when letters of the submission or of the canonical solution are replaced by
letters with the same lowercase mapping, as long as no text holds a capital
sigma before or after the change; the submission COLOR: RED; between blanks is
accepted for color: red;. -/
theorem case_whitespace_insensitive (T : CaseTables) (s c : String) :
    (∀ w w' : String, (∀ ch ∈ w.data, isTrimChar ch = true) →
      (∀ ch ∈ w'.data, isTrimChar ch = true) →
      isCorrect T (w ++ s ++ w') c = isCorrect T s c) ∧
    (∀ s' c' : String, caseVariant T s.data s'.data = true →
      caseVariant T c.data c'.data = true →
      capitalSigma ∉ s.data ++ s'.data ++ c.data ++ c'.data →
      isCorrect T s' c' = isCorrect T s c) ∧
    isCorrect sampleTables "  COLOR: RED;  " "color: red;" = true := by
  refine ⟨?_, ?_, by decide⟩
  · intro w w' hw hw'
    unfold isCorrect
    simp only [String.data_append]
    rw [trim_surrounded w.data s.data w'.data hw hw']
  · intro s' c' hs hc hσ
    simp only [List.mem_append, not_or] at hσ
    obtain ⟨⟨⟨h1, h2⟩, h3⟩, h4⟩ := hσ
    unfold isCorrect
    rw [toLowerCase_trim_caseVariant T s.data s'.data hs h1 h2,
      toLowerCase_trim_caseVariant T c.data c'.data hc h3 h4]

/-- Witness of the amended C11: blanks and a line feed around a submission
with a capital sigma, for which the whitespace part holds all the same, and
the example of the specification, color: red; in capitals. -/
theorem case_whitespace_insensitive_witness :
    isCorrect sampleTables (" \n" ++ "ΑΣ" ++ "  ") "ασ" = isCorrect sampleTables "ΑΣ" "ασ" ∧
    isCorrect sampleTables ("  " ++ "color: red;" ++ "  ") "color: red;"
      = isCorrect sampleTables "color: red;" "color: red;" ∧
    isCorrect sampleTables "COLOR: RED;" "Color: Red;"
      = isCorrect sampleTables "color: red;" "color: red;" :=
  ⟨(case_whitespace_insensitive sampleTables "ΑΣ" "ασ").1 " \n" "  " (by decide) (by decide),
   (case_whitespace_insensitive sampleTables "color: red;" "color: red;").1 "  " "  "
     (by decide) (by decide),
   (case_whitespace_insensitive sampleTables "color: red;" "color: red;").2.1
     "COLOR: RED;" "Color: Red;" (by decide) (by decide) (by decide)⟩

/-- C12 fails on the code: when the INSERT into progress fails and the UPDATE
of the score succeeds, the answer is still success true, the score has grown by
10 and no progress row exists; when only the UPDATE fails, the progress row is
there and the score is unchanged. -/
theorem storage_failure_answered_with_success :
    (submitWithStorage sampleTables demoDb helloRequest false true).2.success = some true ∧
    (submitWithStorage sampleTables demoDb helloRequest false true).1.progress = [] ∧
    scoreOf demoDb 1 = some 0 ∧
    scoreOf (submitWithStorage sampleTables demoDb helloRequest false true).1 1 = some 10 ∧
    (submitWithStorage sampleTables demoDb helloRequest true false).2.success = some true ∧
    (submitWithStorage sampleTables demoDb helloRequest true false).1.progress.length = 1 ∧
    scoreOf (submitWithStorage sampleTables demoDb helloRequest true false).1 1 = some 0 := by
  decide

/-- C12 as amended: in an accepted submission the two writes are separate
statements.  If the progress write fails the progress table is unchanged, if
the score update fails the users table is unchanged, and a write that does not
fail has the effect it has in a submission without failure, whether or not the
other write failed. -/
theorem storage_failure_per_statement (T : CaseTables) (db : Db) (req : SubmitRequest)
    (lvl : Level) (hl : getLevel db.levels req.language req.levelNumber = some lvl)
    (hc : isCorrect T req.solution lvl.solution = true) (progressOk scoreOk : Bool) :
    (progressOk = false →
      (submitWithStorage T db req progressOk scoreOk).1.progress = db.progress) ∧
    (scoreOk = false →
      (submitWithStorage T db req progressOk scoreOk).1.users = db.users) ∧
    (progressOk = true →
      (submitWithStorage T db req progressOk scoreOk).1.progress
        = (submit T db req).1.progress) ∧
    (scoreOk = true →
      (submitWithStorage T db req progressOk scoreOk).1.users = (submit T db req).1.users) := by
  rw [submit_of_correct T db req lvl hl hc]
  unfold submitWithStorage
  simp only [hl, hc, if_true]
  cases progressOk <;> cases scoreOk <;> simp [addScore, insertProgress]

/-- Witness of the amended C12: the accepted submission for (html, 1) with a
failing score update. -/
theorem storage_failure_per_statement_witness :
    (submitWithStorage sampleTables demoDb helloRequest true false).1.users = demoDb.users ∧
    (submitWithStorage sampleTables demoDb helloRequest true false).1.progress
      = (submit sampleTables demoDb helloRequest).1.progress :=
  have h := storage_failure_per_statement sampleTables demoDb helloRequest
    { id := 1, language := "html", level_number := 1, title := "Hello World",
      description := "Create your first HTML page with a heading",
      challenge := "Create an HTML page with an <h1> heading that says \"Hello World\"",
      solution := "<h1>Hello World</h1>",
      hints := some "Use the h1 tag to create a main heading", points := 10 }
    (by decide) (by decide) true false
  ⟨h.2.1 rfl, h.2.2.1 rfl⟩

/-- C13: a submit request of user u for (language, level) leaves every users
row with another id as it was, in place, and leaves the progress rows of every
other (user_id, language, level) triple as they were: none is added, removed
or altered. -/
theorem submit_independent_of_other_keys (T : CaseTables) (db : Db) (req : SubmitRequest) :
    (submit T db req).1.users.filter (fun u => u.id != req.userId)
      = db.users.filter (fun u => u.id != req.userId) ∧
    (submit T db req).1.users.map User.id = db.users.map User.id ∧
    (submit T db req).1.progress.filter
        (fun p => !(p.user_id == req.userId && p.language == req.language &&
          p.level == req.levelNumber))
      = db.progress.filter
        (fun p => !(p.user_id == req.userId && p.language == req.language &&
          p.level == req.levelNumber)) := by
  cases hl : getLevel db.levels req.language req.levelNumber with
  | none => rw [submit_of_none T db req hl]; exact ⟨rfl, rfl, rfl⟩
  | some lvl =>
    cases hc : isCorrect T req.solution lvl.solution with
    | false => rw [submit_of_wrong T db req lvl hl hc]; exact ⟨rfl, rfl, rfl⟩
    | true =>
      rw [submit_of_correct T db req lvl hl hc]
      refine ⟨?_, ?_, ?_⟩
      · simp only [addScore, insertProgress]
        induction db.users with
        | nil => rfl
        | cons u us ih =>
          simp only [beq_iff_eq] at ih
          by_cases hu : u.id = req.userId
          · simp [List.filter_cons, hu, ih]
          · simp [List.filter_cons, hu, ih]
      · simp only [addScore, insertProgress, List.map_map]
        apply List.map_congr_left
        intro u _
        by_cases hu : u.id = req.userId <;> simp [hu]
      · simp [addScore, insertProgress, List.filter_append, List.filter_cons]

theorem forall₂_score_refl (us : List User) :
    List.Forall₂ (fun a b : User => a.id = b.id ∧ a.score ≤ b.score) us us := by
  induction us with
  | nil => exact List.Forall₂.nil
  | cons u us ih => exact List.Forall₂.cons ⟨rfl, le_refl _⟩ ih

theorem forall₂_score_trans (xs ys zs : List User)
    (h1 : List.Forall₂ (fun a b : User => a.id = b.id ∧ a.score ≤ b.score) xs ys)
    (h2 : List.Forall₂ (fun a b : User => a.id = b.id ∧ a.score ≤ b.score) ys zs) :
    List.Forall₂ (fun a b : User => a.id = b.id ∧ a.score ≤ b.score) xs zs := by
  induction h1 generalizing zs with
  | nil => cases h2; exact List.Forall₂.nil
  | cons hab _ ih =>
    cases h2 with
    | cons hbc hrest =>
      exact List.Forall₂.cons ⟨hab.1.trans hbc.1, le_trans hab.2 hbc.2⟩ (ih _ hrest)

/-- One request never lowers a score when the points of all levels are
positive. -/
theorem submit_score_mono (T : CaseTables) (db : Db) (req : SubmitRequest)
    (hpos : ∀ l ∈ db.levels, 0 < l.points) :
    List.Forall₂ (fun a b : User => a.id = b.id ∧ a.score ≤ b.score)
      db.users (submit T db req).1.users := by
  have hrefl := forall₂_score_refl
  cases hl : getLevel db.levels req.language req.levelNumber with
  | none => rw [submit_of_none T db req hl]; exact hrefl _
  | some lvl =>
    cases hc : isCorrect T req.solution lvl.solution with
    | false => rw [submit_of_wrong T db req lvl hl hc]; exact hrefl _
    | true =>
      rw [submit_of_correct T db req lvl hl hc]
      have hp : 0 < lvl.points := hpos lvl (List.mem_of_find?_eq_some hl)
      simp only [addScore, insertProgress]
      induction db.users with
      | nil => exact List.Forall₂.nil
      | cons u us ih =>
        refine List.Forall₂.cons ?_ ih
        by_cases hu : u.id = req.userId
        · simp [hu]; omega
        · simp [hu]

/-- C14: when every point value of the catalog is positive, after every
sequence of submit requests the users table holds the same users in the same
order and the score of each is at least what it was before; this holds in
particular for a single request. -/
theorem score_never_decreases (T : CaseTables) (db : Db) (reqs : List SubmitRequest)
    (hpos : ∀ l ∈ db.levels, 0 < l.points) :
    List.Forall₂ (fun a b : User => a.id = b.id ∧ a.score ≤ b.score)
      db.users (runSubmits T db reqs).users := by
  induction reqs generalizing db with
  | nil => exact forall₂_score_refl db.users
  | cons r rs ih =>
    rw [runSubmits_cons]
    have h1 := submit_score_mono T db r hpos
    have h2 := ih (submit T db r).1 (by rw [submit_levels]; exact hpos)
    exact forall₂_score_trans _ _ _ h1 h2

/-- Witness of C14: the seeded catalog has positive points; an accepted, a
rejected and a repeated submission. -/
theorem score_never_decreases_witness :
    (∀ l ∈ demoDb.levels, 0 < l.points) ∧
    List.Forall₂ (fun a b : User => a.id = b.id ∧ a.score ≤ b.score)
      demoDb.users
      (runSubmits sampleTables demoDb
        [helloRequest, { helloRequest with solution := "<h2>Hello World</h2>" },
         helloRequest]).users :=
  ⟨by decide, score_never_decreases sampleTables demoDb _ (by decide)⟩

/-- The progress table after one request is the table before it followed by
at most one new row, which is completed. -/
theorem submit_progress_grows (T : CaseTables) (db : Db) (req : SubmitRequest) :
    ∃ added, (submit T db req).1.progress = db.progress ++ added ∧
      ∀ p ∈ added, p.completed = true := by
  cases hl : getLevel db.levels req.language req.levelNumber with
  | none => rw [submit_of_none T db req hl]; exact ⟨[], by simp⟩
  | some lvl =>
    cases hc : isCorrect T req.solution lvl.solution with
    | false => rw [submit_of_wrong T db req lvl hl hc]; exact ⟨[], by simp⟩
    | true =>
      rw [submit_of_correct T db req lvl hl hc]
      exact ⟨_, rfl, by simp⟩

/-- C15: after every sequence of submit requests the progress table is the
earlier table, row for row, followed by the rows added since, all of which are
completed: a completed row of a triple is never deleted or changed, and when
all rows were completed before (as in the empty table) all rows are completed
afterwards; a rejected request leaves the progress table as it was. -/
theorem completed_is_terminal (T : CaseTables) (db : Db) (reqs : List SubmitRequest) :
    (∃ added, (runSubmits T db reqs).progress = db.progress ++ added ∧
      ∀ p ∈ added, p.completed = true) ∧
    (∀ p ∈ db.progress, p.completed = true → ∃ q ∈ (runSubmits T db reqs).progress,
      q.user_id = p.user_id ∧ q.language = p.language ∧ q.level = p.level ∧
      q.completed = true) ∧
    ((∀ p ∈ db.progress, p.completed = true) →
      ∀ p ∈ (runSubmits T db reqs).progress, p.completed = true) ∧
    (∀ req, (submit T db req).2.success = some false →
      (submit T db req).1.progress = db.progress) := by
  have hgrow : ∃ added, (runSubmits T db reqs).progress = db.progress ++ added ∧
      ∀ p ∈ added, p.completed = true := by
    induction reqs generalizing db with
    | nil => exact ⟨[], by simp [runSubmits]⟩
    | cons r rs ih =>
      rw [runSubmits_cons]
      obtain ⟨a1, h1, hc1⟩ := submit_progress_grows T db r
      obtain ⟨a2, h2, hc2⟩ := ih (submit T db r).1
      refine ⟨a1 ++ a2, by rw [h2, h1, List.append_assoc], ?_⟩
      intro p hp
      rcases List.mem_append.mp hp with h | h
      · exact hc1 p h
      · exact hc2 p h
  obtain ⟨added, hadd, hcomp⟩ := hgrow
  refine ⟨⟨added, hadd, hcomp⟩, ?_, ?_, ?_⟩
  · intro p hp hpc
    exact ⟨p, by rw [hadd]; exact List.mem_append_left _ hp, rfl, rfl, rfl, hpc⟩
  · intro hall p hp
    rw [hadd] at hp
    rcases List.mem_append.mp hp with h | h
    · exact hall p h
    · exact hcomp p h
  · intro req hrej
    cases hl : getLevel db.levels req.language req.levelNumber with
    | none => rw [submit_of_none T db req hl]
    | some lvl =>
      cases hc : isCorrect T req.solution lvl.solution with
      | false => rw [submit_of_wrong T db req lvl hl hc]
      | true =>
        rw [submit_of_correct T db req lvl hl hc] at hrej
        simp [levelCompleted] at hrej

/-- C16 on the code: seeding the empty database gives six level rows, seeding
it a second time gives twelve, two for each (language, level_number) pair. -/
theorem reseeding_duplicates_levels :
    (insertSampleLevels emptyDb).levels.length = 6 ∧
    (insertSampleLevels (insertSampleLevels emptyDb)).levels.length = 12 ∧
    ((insertSampleLevels (insertSampleLevels emptyDb)).levels.filter
      (fun l => l.language == "html" && l.level_number == 1)).length = 2 ∧
    (insertSampleLevels (insertSampleLevels emptyDb)).levels
      ≠ (insertSampleLevels emptyDb).levels := by
  decide

/-- C17: when the Authorization header is missing or has no second
blank-separated part (or an empty one), the answer is 401 and the token is not
verified; when the token is verified and fails, the answer is 403; in both
cases the database is unchanged and the answer is the same for every body, so
the handler is not run.  The handler runs exactly when the token passes
verification, with the verified identity as the caller. -/
theorem authentication_gate (verify : String → Option JwtUser) (T : CaseTables) (db : Db)
    (authHeader : Option String) (body : SubmitBody) (now : Nat) :
    (authHeader = none → postSubmit verify T db authHeader body now = (db, statusOnly 401)) ∧
    (∀ h, authHeader = some h → (h.data.splitOn ' ').get? 1 = none →
      postSubmit verify T db authHeader body now = (db, statusOnly 401)) ∧
    (bearerToken authHeader = some "" →
      postSubmit verify T db authHeader body now = (db, statusOnly 401)) ∧
    (∀ token, bearerToken authHeader = some token → token ≠ "" → verify token = none →
      postSubmit verify T db authHeader body now = (db, statusOnly 403)) ∧
    (∀ token user, bearerToken authHeader = some token → token ≠ "" →
      verify token = some user →
      postSubmit verify T db authHeader body now =
        submit T db { userId := user.id, language := body.language,
                      levelNumber := body.levelNumber, solution := body.solution,
                      now := now }) ∧
    (∀ user, authenticateToken verify authHeader = .ok user ↔
      ∃ token, bearerToken authHeader = some token ∧ token ≠ "" ∧
        verify token = some user) := by
  refine ⟨?_, ?_, ?_, ?_, ?_, ?_⟩
  · intro h
    subst h
    simp [postSubmit, authenticateToken, bearerToken]
  · intro h hh hsplit
    subst hh
    by_cases he : h = ""
    · simp [postSubmit, authenticateToken, bearerToken, he]
    · have hsplit' : (List.splitOn ' ' h.data)[1]? = none := by simpa using hsplit
      simp [postSubmit, authenticateToken, bearerToken, he, hsplit']
  · intro ht
    simp [postSubmit, authenticateToken, ht]
  · intro token ht hne hv
    simp [postSubmit, authenticateToken, ht, hne, hv]
  · intro token user ht hne hv
    simp [postSubmit, authenticateToken, ht, hne, hv]
  · intro user
    unfold authenticateToken
    cases ht : bearerToken authHeader with
    | none => simp
    | some token =>
      by_cases hne : token = ""
      · simp [hne]
      · cases hv : verify token with
        | none => simp [hne, hv]
        | some u => simp [hne, hv]

/-- Witness of C17: a request without header, one whose header is the scheme
alone, one with a token that fails verification and one with the valid
token. -/
theorem authentication_gate_witness :
    postSubmit demoVerify sampleTables demoDb none
        { language := "html", levelNumber := 1, solution := "<h1>Hello World</h1>" } 1
      = (demoDb, statusOnly 401) ∧
    postSubmit demoVerify sampleTables demoDb (some "Bearer")
        { language := "html", levelNumber := 1, solution := "<h1>Hello World</h1>" } 1
      = (demoDb, statusOnly 401) ∧
    postSubmit demoVerify sampleTables demoDb (some "Bearer forged")
        { language := "html", levelNumber := 1, solution := "<h1>Hello World</h1>" } 1
      = (demoDb, statusOnly 403) ∧
    postSubmit demoVerify sampleTables demoDb (some "Bearer token-of-player")
        { language := "html", levelNumber := 1, solution := "<h1>Hello World</h1>" } 1
      = submit sampleTables demoDb helloRequest :=
  ⟨(authentication_gate demoVerify sampleTables demoDb none _ 1).1 rfl,
   (authentication_gate demoVerify sampleTables demoDb (some "Bearer") _ 1).2.1
      "Bearer" rfl (by decide),
   (authentication_gate demoVerify sampleTables demoDb (some "Bearer forged") _ 1).2.2.2.1
      "forged" (by decide) (by decide) (by decide),
   (authentication_gate demoVerify sampleTables demoDb (some "Bearer token-of-player")
      _ 1).2.2.2.2.1 "token-of-player" { id := 1, username := "player" }
      (by decide) (by decide) (by decide)⟩

/-- C18: the response of the leaderboard is the projection to username, score
and level of a selection of rows of the users table: the selected rows and the
rows left out make up the table, at most ten rows are selected, min(10, number
of users) to be exact, every row left out has a score at most the score of
every selected row, and the entries are in non-increasing order of score; with
at most ten users all rows are selected. -/
theorem leaderboard_top_ten (users : List User) :
    (∃ rows rest : List User,
      leaderboard users =
        rows.map (fun u => { username := u.username, score := u.score, level := u.level }) ∧
      (rows ++ rest).Perm users ∧
      rows.length = min 10 users.length ∧
      (∀ a ∈ rows, ∀ b ∈ rest, b.score ≤ a.score) ∧
      List.Pairwise (fun a b : User => b.score ≤ a.score) rows ∧
      (users.length ≤ 10 → rest = [])) ∧
    (leaderboard users).length ≤ 10 ∧
    (leaderboard users).length = min 10 users.length ∧
    (leaderboard users).map LeaderboardEntry.score
      = ((users.insertionSort byScoreDesc).take 10).map User.score ∧
    List.Pairwise (fun a b : LeaderboardEntry => b.score ≤ a.score) (leaderboard users) := by
  have hsorted : List.Pairwise byScoreDesc (users.insertionSort byScoreDesc) :=
    List.sorted_insertionSort byScoreDesc users
  have hperm : (users.insertionSort byScoreDesc).Perm users :=
    List.perm_insertionSort byScoreDesc users
  have hlen : (users.insertionSort byScoreDesc).length = users.length := hperm.length_eq
  have hsplit : leaderboardRows users ++ (users.insertionSort byScoreDesc).drop 10
      = users.insertionSort byScoreDesc := List.take_append_drop 10 _
  have hrows : List.Pairwise byScoreDesc (leaderboardRows users) :=
    hsorted.sublist (List.take_sublist 10 _)
  refine ⟨⟨leaderboardRows users, (users.insertionSort byScoreDesc).drop 10,
    rfl, ?_, ?_, ?_, hrows, ?_⟩, ?_, ?_, ?_, ?_⟩
  · rw [hsplit]; exact hperm
  · simp only [leaderboardRows, List.length_take, hlen]
  · rw [← hsplit] at hsorted
    exact (List.pairwise_append.mp hsorted).2.2
  · intro h
    apply List.drop_eq_nil_of_le
    rw [hlen]; exact h
  · simp only [leaderboard, leaderboardRows, List.length_map, List.length_take]
    exact Nat.min_le_left _ _
  · simp only [leaderboard, leaderboardRows, List.length_map, List.length_take, hlen]
  · simp [leaderboard, leaderboardRows, List.map_map, Function.comp_def]
  · unfold leaderboard
    rw [List.pairwise_map]
    exact hrows

/-- Witness of C18: the leaderboard of twelve users with the scores 0, 10,
..., 110 has the ten highest scores from 110 down to 20, the users with 0 and
10 being left out; three users are all listed. -/
theorem leaderboard_top_ten_witness :
    (leaderboard twelveUsers).length = min 10 twelveUsers.length ∧
    (leaderboard twelveUsers).map LeaderboardEntry.score
      = [110, 100, 90, 80, 70, 60, 50, 40, 30, 20] ∧
    (leaderboard (twelveUsers.take 3)).map LeaderboardEntry.score = [20, 10, 0] :=
  ⟨(leaderboard_top_ten twelveUsers).2.2.1, by decide, by decide⟩

/-- C19: the level list of a language holds exactly the rows of the catalog
with that language, each as often as in the catalog, in ascending order of
level_number; for a language without levels it is the empty list. -/
theorem listLevels_exact_and_sorted (levels : List Level) (language : String) :
    (listLevels levels language).Perm (levels.filter (fun l => l.language == language)) ∧
    (∀ l, l ∈ listLevels levels language ↔ l ∈ levels ∧ l.language = language) ∧
    List.Pairwise (fun a b : Level => a.level_number ≤ b.level_number)
      (listLevels levels language) ∧
    ((∀ l ∈ levels, l.language ≠ language) → listLevels levels language = []) := by
  have hperm : (listLevels levels language).Perm
      (levels.filter (fun l => l.language == language)) :=
    List.perm_insertionSort byLevelNumber _
  refine ⟨hperm, ?_, ?_, ?_⟩
  · intro l
    rw [hperm.mem_iff, List.mem_filter]
    simp
  · exact List.sorted_insertionSort byLevelNumber _
  · intro h
    have : levels.filter (fun l => l.language == language) = [] := by
      rw [List.filter_eq_nil_iff]
      intro l hl
      simpa using h l hl
    unfold listLevels
    rw [this]
    rfl

/-- C20 fails on the code: the seeded catalog and the catalog obtained from it
by blanking every solution differ only in the solution fields, and their level
lists for html differ; the list of the seeded catalog carries the canonical
text of (html, 1). -/
theorem level_list_reveals_solution :
    demoDb.levels.map withoutSolution
      = (demoDb.levels.map withoutSolution).map withoutSolution ∧
    listLevels demoDb.levels "html" ≠ listLevels (demoDb.levels.map withoutSolution) "html" ∧
    ((listLevels demoDb.levels "html").map Level.solution).head? = some "<h1>Hello World</h1>" := by
  decide

/-- C20 as amended: the level list does not withhold the canonical solution:
every level of the requested language is returned as its complete row, so its
solution text is part of the response. -/
theorem level_list_has_full_rows (levels : List Level) (language : String) (l : Level)
    (hl : l ∈ levels) (hlang : l.language = language) :
    l ∈ listLevels levels language ∧
    l.solution ∈ (listLevels levels language).map Level.solution := by
  have hmem : l ∈ listLevels levels language := by
    have hperm : (listLevels levels language).Perm
        (levels.filter (fun l => l.language == language)) :=
      List.perm_insertionSort byLevelNumber _
    rw [hperm.mem_iff, List.mem_filter]
    exact ⟨hl, by simp [hlang]⟩
  exact ⟨hmem, List.mem_map_of_mem _ hmem⟩

/-- Witness of the amended C20: the row of (css, 1) in the seeded catalog. -/
theorem level_list_has_full_rows_witness :
    "color: red;" ∈ (listLevels demoDb.levels "css").map Level.solution :=
  (level_list_has_full_rows demoDb.levels "css"
    { id := 3, language := "css", level_number := 1, title := "Color the World",
      description := "Learn to change text colors in CSS",
      challenge := "Make the text color red using CSS",
      solution := "color: red;",
      hints := some "Use the color property to change text color", points := 10 }
    (by decide) rfl).2

/-! ## Lemmas for the last claims -/

theorem includes_nil (hay : List Char) : includes hay [] = true := by
  rw [includes_iff_occurs]
  exact List.nil_infix

theorem isCorrect_of_blank_submission (T : CaseTables) (s c : String)
    (hs : trim s.data = []) (hc : trim c.data ≠ []) : isCorrect T s c = false := by
  unfold isCorrect toLowerCase
  rw [hs]
  have hne : toLowerCaseFrom T [] (trim c.data) ≠ [] := by
    rw [Ne, toLowerCaseFrom_eq_nil]; exact hc
  cases hx : toLowerCaseFrom T [] (trim c.data) with
  | nil => exact absurd hx hne
  | cons a l => simp [toLowerCaseFrom, includes]

theorem submit_level_column (T : CaseTables) (db : Db) (req : SubmitRequest) :
    (submit T db req).1.users.map User.level = db.users.map User.level := by
  cases hl : getLevel db.levels req.language req.levelNumber with
  | none => rw [submit_of_none T db req hl]
  | some lvl =>
    cases hc : isCorrect T req.solution lvl.solution with
    | false => rw [submit_of_wrong T db req lvl hl hc]
    | true =>
      rw [submit_of_correct T db req lvl hl hc]
      simp only [addScore, insertProgress, List.map_map]
      apply List.map_congr_left
      intro u _
      by_cases hu : u.id = req.userId <;> simp [hu]

theorem le_foldr_max (l : List Int) : ∀ x ∈ l, x ≤ l.foldr max 0 := by
  induction l with
  | nil => intro x hx; simp at hx
  | cons a l ih =>
    intro x hx
    simp only [List.foldr_cons]
    rcases List.mem_cons.mp hx with h | h
    · rw [h]; exact le_max_left _ _
    · exact le_trans (ih x h) (le_max_right _ _)

theorem foldr_max_nonneg (l : List Int) : 0 ≤ l.foldr max 0 := by
  induction l with
  | nil => simp
  | cons a l ih => simp only [List.foldr_cons]; exact le_trans ih (le_max_right _ _)

theorem foldr_max_mem (l : List Int) (hne : l ≠ []) (hpos : ∀ x ∈ l, 0 ≤ x) :
    l.foldr max 0 ∈ l := by
  induction l with
  | nil => exact absurd rfl hne
  | cons a l ih =>
    simp only [List.foldr_cons]
    by_cases hl : l = []
    · subst hl
      have ha : 0 ≤ a := hpos a (by simp)
      simp [max_eq_left ha]
    · have hmem := ih hl (fun x hx => hpos x (List.mem_cons_of_mem _ hx))
      rcases le_total a (l.foldr max 0) with h | h
      · rw [max_eq_right h]; exact List.mem_cons_of_mem _ hmem
      · rw [max_eq_left h]; exact List.mem_cons_self _ _

/-- The percentage follows the floating-point arithmetic of the source: 23 of
40 is 0.575, whose product with 100 is just below 57.5 and is rounded to 57;
1 of 8 gives exactly 12.5, rounded up to 13. -/
theorem roundPercent_floating_point :
    roundPercent 23 40 = 57 ∧ roundPercent 1 8 = 13 ∧ roundPercent 1 3 = 33 ∧
    roundPercent 2 3 = 67 ∧ roundPercent 3 2 = 150 := by
  decide

/-! ## The claims, concluded -/

/-- C21: the progress list of a caller holds exactly the progress rows whose
user_id is the id of the caller, each as often as in the table, ordered by
language and, within a language, by level, both ascending. -/
theorem listProgress_exact_and_sorted (progress : List Progress) (userId : Int) :
    (listProgress progress userId).Perm (progress.filter (fun p => p.user_id == userId)) ∧
    (∀ p, p ∈ listProgress progress userId ↔ p ∈ progress ∧ p.user_id = userId) ∧
    List.Pairwise
      (fun a b : Progress =>
        textLt a.language.data b.language.data = true ∨
          (a.language = b.language ∧ a.level ≤ b.level))
      (listProgress progress userId) := by
  have hperm : (listProgress progress userId).Perm
      (progress.filter (fun p => p.user_id == userId)) :=
    List.perm_insertionSort byLanguageLevel _
  refine ⟨hperm, ?_, ?_⟩
  · intro p
    rw [hperm.mem_iff, List.mem_filter]
    simp
  · exact List.sorted_insertionSort byLanguageLevel _

/-- C22: for a canonical solution that is empty or blank after trimming, the
evaluator accepts every submission, in particular every non-empty one. -/
theorem blank_solution_accepts_all (T : CaseTables) (s c : String)
    (hc : trim c.data = []) : isCorrect T s c = true := by
  unfold isCorrect
  rw [hc]
  exact includes_nil _

/-- Witness of C22: a canonical solution of two blanks and a submission that
has nothing to do with it. -/
theorem blank_solution_accepts_all_witness :
    trim "  ".data = [] ∧ isCorrect sampleTables "anything at all" "  " = true :=
  ⟨by decide, blank_solution_accepts_all sampleTables "anything at all" "  " (by decide)⟩

/-- C24: when the editor content is blank after trimming, `handleSubmit` sets
the message Please write some code first! and sends no request, so a click
leaves the database of the server as it is; otherwise it sends exactly one
request, to /api/submit, with the untrimmed text, the language and
parseInt(level). -/
theorem handleSubmit_guard (st : GameLevel) :
    (trim st.userCode.data = [] →
      handleSubmit st = ({ st with message := "Please write some code first!" }, []) ∧
      ∀ (T : CaseTables) (db : Db) (userId : Int) (now : Nat),
        clickSubmit T db userId now st = (db, none)) ∧
    (trim st.userCode.data ≠ [] →
      (handleSubmit st).2 =
        [{ url := "/api/submit", method := "POST", authorization := "Bearer " ++ st.token,
           language := st.language, levelNumber := parseInt st.level,
           solution := st.userCode }]) := by
  constructor
  · intro h
    have h1 : handleSubmit st = ({ st with message := "Please write some code first!" }, []) := by
      simp [handleSubmit, h]
    refine ⟨h1, ?_⟩
    intro T db userId now
    simp [clickSubmit, h1]
  · intro h
    simp [handleSubmit, h]

/-- Witness of C24: an editor holding blanks only, and the editor of the
route /game/html/2 holding the canonical solution. -/
theorem handleSubmit_guard_witness :
    handleSubmit { lastHtmlLevel with userCode := " \n " }
      = ({ lastHtmlLevel with userCode := " \n ", message := "Please write some code first!" },
         []) ∧
    (handleSubmit lastHtmlLevel).2 =
      [{ url := "/api/submit", method := "POST", authorization := "Bearer token-of-player",
         language := "html", levelNumber := some 2, solution := lastHtmlLevel.userCode }] :=
  ⟨((handleSubmit_guard { lastHtmlLevel with userCode := " \n " }).1 (by decide)).1,
   (handleSubmit_guard lastHtmlLevel).2 (by decide)⟩

/-- C25 on the code: (html, 2) is the last html level of the seeded catalog;
when its canonical solution is submitted from the route /game/html/2, the
client navigates to /game/html/3 and not to /dashboard. -/
theorem last_level_navigates_to_missing_level :
    getLevel demoDb.levels "html" 3 = none ∧
    (serveFetch sampleTables demoDb 1 5
      { url := "/api/submit", method := "POST", authorization := "Bearer token-of-player",
        language := "html", levelNumber := some 2, solution := lastHtmlLevel.userCode }).2
      = levelCompleted 15 3 ∧
    (clickSubmit sampleTables demoDb 1 5 lastHtmlLevel).2 = some "/game/html/3" := by
  decide

/-- C26: in the array of `insertSampleLevels` no two levels share a
(language, level_number) pair, the languages are html, css and javascript, the
level numbers of each language are exactly 1 and 2, and every point value is
positive. -/
theorem sampleLevels_wellformed :
    (sampleLevels.map (fun l => (l.language, l.level_number))).Nodup ∧
    (∀ l ∈ sampleLevels, l.language ∈ ["html", "css", "javascript"]) ∧
    (∀ lang ∈ ["html", "css", "javascript"],
      ((sampleLevels.filter (fun l => l.language == lang)).map LevelSeed.level_number)
        = [1, 2]) ∧
    (∀ l ∈ sampleLevels, 0 < l.points) := by
  decide

/-- C27: every canonical solution of the seeded catalog is non-blank after
trimming; hence, for every level of the freshly seeded database, a submission
that is blank after trimming is rejected, so no verdict is true for all
submissions. -/
theorem seeded_solutions_not_blank :
    (∀ l ∈ sampleLevels, trim l.solution.data ≠ []) ∧
    (∀ l ∈ (initializeDatabase emptyDb).levels, trim l.solution.data ≠ []) ∧
    (∀ (T : CaseTables), ∀ l ∈ (initializeDatabase emptyDb).levels, ∀ s : String,
      trim s.data = [] → isCorrect T s l.solution = false) := by
  have h2 : ∀ l ∈ (initializeDatabase emptyDb).levels, trim l.solution.data ≠ [] := by
    decide
  refine ⟨by decide, h2, ?_⟩
  intro T l hl s hs
  exact isCorrect_of_blank_submission T s l.solution hs (h2 l hl)

/-- C28: after every sequence of submit requests the level column of the users
table is what it was, row for row; when every stored level is 1 before, every
stored level is 1 afterwards. -/
theorem submit_keeps_level_column (T : CaseTables) (db : Db) (reqs : List SubmitRequest) :
    (runSubmits T db reqs).users.map User.level = db.users.map User.level ∧
    ((∀ u ∈ db.users, u.level = 1) → ∀ u ∈ (runSubmits T db reqs).users, u.level = 1) := by
  have h1 : (runSubmits T db reqs).users.map User.level = db.users.map User.level := by
    induction reqs generalizing db with
    | nil => rfl
    | cons r rs ih => rw [runSubmits_cons, ih, submit_level_column]
  refine ⟨h1, ?_⟩
  intro hall u hu
  have hm : u.level ∈ (runSubmits T db reqs).users.map User.level := List.mem_map_of_mem _ hu
  rw [h1] at hm
  obtain ⟨u0, hu0, he⟩ := List.mem_map.mp hm
  rw [← he]
  exact hall u0 hu0

/-- A request adds progress rows only for level numbers of the catalog. -/
theorem submit_progress_levels_nonneg (T : CaseTables) (db : Db) (req : SubmitRequest)
    (hcat : ∀ l ∈ db.levels, 0 ≤ l.level_number) (hrows : ∀ p ∈ db.progress, 0 ≤ p.level) :
    ∀ p ∈ (submit T db req).1.progress, 0 ≤ p.level := by
  cases hl : getLevel db.levels req.language req.levelNumber with
  | none => rw [submit_of_none T db req hl]; exact hrows
  | some lvl =>
    cases hc : isCorrect T req.solution lvl.solution with
    | false => rw [submit_of_wrong T db req lvl hl hc]; exact hrows
    | true =>
      rw [submit_of_correct T db req lvl hl hc]
      have hmem : lvl ∈ db.levels := List.mem_of_find?_eq_some hl
      have hnum : lvl.level_number = req.levelNumber := by
        have := List.find?_some hl
        simp only [Bool.and_eq_true, beq_iff_eq] at this
        exact this.2
      intro p hp
      simp only [addScore, insertProgress, List.mem_append, List.mem_singleton] at hp
      rcases hp with hp | hp
      · exact hrows p hp
      · rw [hp]
        show 0 ≤ req.levelNumber
        rw [← hnum]
        exact hcat lvl hmem

theorem runSubmits_progress_levels_nonneg (T : CaseTables) (reqs : List SubmitRequest) :
    ∀ db : Db, (∀ l ∈ db.levels, 0 ≤ l.level_number) → (∀ p ∈ db.progress, 0 ≤ p.level) →
      ∀ p ∈ (runSubmits T db reqs).progress, 0 ≤ p.level := by
  induction reqs with
  | nil => intro db _ hrows; exact hrows
  | cons r rs ih =>
    intro db hcat hrows
    rw [runSubmits_cons]
    exact ih (submit T db r).1 (by rw [submit_levels]; exact hcat)
      (submit_progress_levels_nonneg T db r hcat hrows)

/-- C29: for every language and every progress list whose completed records
of the language have no negative level number, `getNextLevel` returns 1 when
the list has no completed record of the language and otherwise one more than
the largest level number among these records, and the level returned is above
every completed level of the language.  Every progress list that the server
returns is such a list: when the level numbers of the catalog are not negative
(the seeded ones are 1 and 2) and the progress table starts without a negative
level, then after every sequence of submit requests `GET /api/progress` has no
row with a negative level. -/
theorem getNextLevel_spec (language : String) :
    (∀ progress : List Progress,
      (∀ p ∈ progress, p.language = language → p.completed = true → 0 ≤ p.level) →
      ((∀ p ∈ progress, ¬ (p.language = language ∧ p.completed = true)) →
        getNextLevel progress language = 1) ∧
      ((∃ p ∈ progress, p.language = language ∧ p.completed = true) →
        ∃ p ∈ progress, p.language = language ∧ p.completed = true ∧
          getNextLevel progress language = p.level + 1 ∧
          ∀ q ∈ progress, q.language = language → q.completed = true → q.level ≤ p.level) ∧
      (∀ p ∈ progress, p.language = language → p.completed = true →
        p.level < getNextLevel progress language)) ∧
    (∀ (T : CaseTables) (db : Db) (reqs : List SubmitRequest) (userId : Int),
      (∀ l ∈ db.levels, 0 ≤ l.level_number) → (∀ p ∈ db.progress, 0 ≤ p.level) →
      ∀ p ∈ listProgress (runSubmits T db reqs).progress userId, 0 ≤ p.level) := by
  constructor
  · intro progress hpos
    have hmemL : ∀ x, x ∈ (progress.filter
        (fun p => p.language == language && p.completed)).map Progress.level ↔
        ∃ p ∈ progress, p.language = language ∧ p.completed = true ∧ p.level = x := by
      intro x
      simp only [List.mem_map, List.mem_filter, Bool.and_eq_true, beq_iff_eq]
      constructor
      · rintro ⟨p, ⟨hp, hl, hc⟩, rfl⟩; exact ⟨p, hp, hl, hc, rfl⟩
      · rintro ⟨p, hp, hl, hc, rfl⟩; exact ⟨p, ⟨hp, hl, hc⟩, rfl⟩
    have hle : ∀ p ∈ progress, p.language = language → p.completed = true →
        p.level ≤ ((progress.filter
          (fun p => p.language == language && p.completed)).map Progress.level).foldr max 0 :=
      fun p hp hl hc => le_foldr_max _ _ ((hmemL _).mpr ⟨p, hp, hl, hc, rfl⟩)
    refine ⟨?_, ?_, ?_⟩
    · intro hnone
      have : progress.filter (fun p => p.language == language && p.completed) = [] := by
        rw [List.filter_eq_nil_iff]
        intro p hp
        simpa using hnone p hp
      simp [getNextLevel, this]
    · rintro ⟨p0, hp0, hl0, hc0⟩
      have hne : (progress.filter
          (fun p => p.language == language && p.completed)).map Progress.level ≠ [] := by
        intro h
        have : p0.level ∈ (progress.filter
            (fun p => p.language == language && p.completed)).map Progress.level :=
          (hmemL _).mpr ⟨p0, hp0, hl0, hc0, rfl⟩
        rw [h] at this
        simp at this
      have hnn : ∀ x ∈ (progress.filter
          (fun p => p.language == language && p.completed)).map Progress.level, 0 ≤ x := by
        intro x hx
        obtain ⟨p, hp, hl, hc, rfl⟩ := (hmemL x).mp hx
        exact hpos p hp hl hc
      obtain ⟨p, hp, hl, hc, hlev⟩ := (hmemL _).mp (foldr_max_mem _ hne hnn)
      refine ⟨p, hp, hl, hc, ?_, ?_⟩
      · simp only [getNextLevel]; rw [hlev]
      · intro q hq hql hqc
        rw [hlev]
        exact hle q hq hql hqc
    · intro p hp hl hc
      have := hle p hp hl hc
      simp only [getNextLevel]
      omega
  · intro T db reqs userId hcat hrows p hp
    have hperm : (listProgress (runSubmits T db reqs).progress userId).Perm
        ((runSubmits T db reqs).progress.filter (fun p => p.user_id == userId)) :=
      List.perm_insertionSort byLanguageLevel _
    have hmem : p ∈ (runSubmits T db reqs).progress :=
      (List.mem_filter.mp (hperm.mem_iff.mp hp)).1
    exact runSubmits_progress_levels_nonneg T reqs db hcat hrows p hmem

/-- Witness of C29 on the progress list that the server returns to user 1
after (html, 1), (html, 2) and (html, 1) again have been solved: the next html
level is 3, one more than the largest completed level 2, and the next css
level is 1. -/
theorem getNextLevel_spec_witness :
    (listProgress playedDb.progress 1).map (fun p => (p.language, p.level, p.completed))
      = [("html", 1, true), ("html", 1, true), ("html", 2, true)] ∧
    (∃ p ∈ listProgress playedDb.progress 1, p.language = "html" ∧ p.completed = true ∧
      getNextLevel (listProgress playedDb.progress 1) "html" = p.level + 1 ∧
      ∀ q ∈ listProgress playedDb.progress 1, q.language = "html" → q.completed = true →
        q.level ≤ p.level) ∧
    getNextLevel (listProgress playedDb.progress 1) "html" = 3 ∧
    getNextLevel (listProgress playedDb.progress 1) "css" = 1 :=
  ⟨by decide,
   ((getNextLevel_spec "html").1 (listProgress playedDb.progress 1) (by decide)).2.1
     (by decide),
   by decide,
   ((getNextLevel_spec "css").1 (listProgress playedDb.progress 1) (by decide)).1
     (by decide)⟩

/-- C30 on the code: after three accepted submissions of (html, 1) the
dashboard of the user shows 3 of 2 html levels completed and 150 percent;
after one accepted submission of (css, 1) it shows 1 of 0 css levels, because
only the html levels are fetched. -/
theorem dashboard_progress_exceeds_total :
    getProgressForLanguage
        (fetchUserData
          (runSubmits sampleTables demoDb [helloRequest, helloRequest, helloRequest]) 1).1
        (fetchUserData
          (runSubmits sampleTables demoDb [helloRequest, helloRequest, helloRequest]) 1).2
        "html"
      = { completed := 3, total := 2, percentage := 150 } ∧
    getProgressForLanguage
        (fetchUserData
          (runSubmits sampleTables demoDb
            [{ helloRequest with language := "css", solution := "color: red;" }]) 1).1
        (fetchUserData
          (runSubmits sampleTables demoDb
            [{ helloRequest with language := "css", solution := "color: red;" }]) 1).2
        "css"
      = { completed := 1, total := 0, percentage := 0 } := by
  decide

/-! ## Statements in any order -/

theorem forall₂_compose {P Q R : User → User → Prop} (xs ys zs : List User)
    (h1 : List.Forall₂ P xs ys) (h2 : List.Forall₂ Q ys zs)
    (h : ∀ a b c, P a b → Q b c → R a c) : List.Forall₂ R xs zs := by
  induction h1 generalizing zs with
  | nil => cases h2; exact List.Forall₂.nil
  | cons hab _ ih =>
    cases h2 with
    | cons hbc hrest => exact List.Forall₂.cons (h _ _ _ hab hbc) (ih _ hrest)

theorem forall₂_exists_left {R : User → User → Prop} (xs ys : List User)
    (h : List.Forall₂ R xs ys) : ∀ b ∈ ys, ∃ a ∈ xs, R a b := by
  induction h with
  | nil => intro b hb; simp at hb
  | cons hab _ ih =>
    intro b hb
    rcases List.mem_cons.mp hb with e | hb'
    · exact ⟨_, List.mem_cons_self _ _, e ▸ hab⟩
    · obtain ⟨a, ha, hr⟩ := ih b hb'
      exact ⟨a, List.mem_cons_of_mem _ ha, hr⟩

theorem execStatement_users (db : Db) (st : Statement) :
    List.Forall₂ (fun u v : User => v.id = u.id ∧ v.score = u.score + scoreAdded u.id st)
      db.users (execStatement db st).users := by
  cases st with
  | insert userId language level score now =>
    simp only [execStatement, insertProgress, scoreAdded, add_zero]
    induction db.users with
    | nil => exact List.Forall₂.nil
    | cons u us ih => exact List.Forall₂.cons ⟨rfl, rfl⟩ ih
  | update points userId =>
    simp only [execStatement, addScore, scoreAdded]
    induction db.users with
    | nil => exact List.Forall₂.nil
    | cons u us ih =>
      refine List.Forall₂.cons ?_ ih
      by_cases hu : u.id = userId
      · simp [hu]
      · have : ¬ userId = u.id := fun e => hu e.symm
        simp [hu, this]

theorem runStatements_users (stmts : List Statement) :
    ∀ db : Db,
      List.Forall₂
        (fun u v : User => v.id = u.id ∧ v.score = u.score + (stmts.map (scoreAdded u.id)).sum)
        db.users (runStatements db stmts).users := by
  induction stmts with
  | nil =>
    intro db
    simp only [runStatements, List.foldl_nil, List.map_nil, List.sum_nil, add_zero]
    induction db.users with
    | nil => exact List.Forall₂.nil
    | cons u us ih => exact List.Forall₂.cons ⟨rfl, rfl⟩ ih
  | cons st rest ih =>
    intro db
    have h1 := execStatement_users db st
    have h2 := ih (execStatement db st)
    refine forall₂_compose _ _ _ h1 h2 ?_
    intro a b c hab hbc
    refine ⟨hbc.1.trans hab.1, ?_⟩
    rw [hbc.2, hab.2, hab.1]
    simp only [List.map_cons, List.sum_cons]
    ring

theorem runStatements_completedScore (stmts : List Statement) (userId : Int) :
    ∀ db : Db,
      completedScore (runStatements db stmts).progress userId
        = completedScore db.progress userId + (stmts.map (scoreRecorded userId)).sum := by
  induction stmts with
  | nil => intro db; simp [runStatements]
  | cons st rest ih =>
    intro db
    have hstep : completedScore (execStatement db st).progress userId
        = completedScore db.progress userId + scoreRecorded userId st := by
      cases st with
      | insert v language level score now =>
        simp only [execStatement, insertProgress, completedScore_append, scoreRecorded]
        simp
      | update points v =>
        simp [execStatement, addScore, scoreRecorded]
    have := ih (execStatement db st)
    simp only [runStatements, List.foldl_cons] at this ⊢
    rw [this, hstep]
    simp only [List.map_cons, List.sum_cons]
    ring

theorem statementsOf_balanced (T : CaseTables) (levels : List Level) (userId : Int)
    (reqs : List SubmitRequest) :
    ((reqs.flatMap (statementsOf T levels)).map (scoreAdded userId)).sum
      = ((reqs.flatMap (statementsOf T levels)).map (scoreRecorded userId)).sum := by
  induction reqs with
  | nil => rfl
  | cons r rs ih =>
    simp only [List.flatMap_cons, List.map_append, List.sum_append, ih]
    congr 1
    unfold statementsOf
    cases getLevel levels r.language r.levelNumber with
    | none => rfl
    | some lvl =>
      by_cases hc : isCorrect T r.solution lvl.solution = true
      · simp [hc, scoreAdded, scoreRecorded]
      · simp [hc]

theorem runStatements_of_request (T : CaseTables) (db : Db) (req : SubmitRequest) :
    runStatements db (statementsOf T db.levels req) = (submit T db req).1 := by
  unfold statementsOf submit
  cases getLevel db.levels req.language req.levelNumber with
  | none => rfl
  | some lvl =>
    by_cases hc : isCorrect T req.solution lvl.solution = true
    · simp [hc, runStatements, execStatement]
    · simp [hc, runStatements]

/-- C23 fails on the code: two accepted submissions of user 1 for (html, 1),
their four statements executed one request after the other (which is the
database that two submit calls leave), give the cached score 20, while the
completed progress records of the user counted once per level sum to 10. -/
theorem duplicate_submissions_counted_twice :
    runStatements demoDb
        ([helloRequest, helloRequest].flatMap (statementsOf sampleTables demoDb.levels))
      = runSubmits sampleTables demoDb [helloRequest, helloRequest] ∧
    scoreOf
      (runStatements demoDb
        ([helloRequest, helloRequest].flatMap (statementsOf sampleTables demoDb.levels))) 1
      = some 20 ∧
    oncePerLevelScore
      (runStatements demoDb
        ([helloRequest, helloRequest].flatMap (statementsOf sampleTables demoDb.levels))).progress
      1 = 10 := by
  decide

/-- When the statements of any requests have all been executed, in any order
whatever, every cached score equals the sum of score over the completed
progress rows of the user, provided this held before. -/
theorem any_statement_order_consistent (T : CaseTables) (db : Db)
    (reqs : List SubmitRequest) (stmts : List Statement)
    (horder : stmts.Perm (reqs.flatMap (statementsOf T db.levels)))
    (h : Consistent db) : Consistent (runStatements db stmts) := by
  intro v hv
  obtain ⟨u, hu, hid, hscore⟩ :=
    forall₂_exists_left _ _ (runStatements_users stmts db) v hv
  rw [hscore, runStatements_completedScore stmts v.id db, hid, h u hu]
  congr 1
  rw [(horder.map (scoreAdded u.id)).sum_eq, (horder.map (scoreRecorded u.id)).sum_eq]
  exact statementsOf_balanced T db.levels u.id reqs

theorem scoreOf_of_forall₂ (f : Int → Int) (k : Int) (xs ys : List User)
    (h : List.Forall₂ (fun u v : User => v.id = u.id ∧ v.score = u.score + f u.id) xs ys) :
    (ys.find? (fun u => u.id == k)).map User.score
      = ((xs.find? (fun u => u.id == k)).map User.score).map (· + f k) := by
  induction h with
  | nil => rfl
  | @cons u v xs ys huv _ ih =>
    by_cases hk : u.id = k
    · have hv : v.id = k := huv.1.trans hk
      simp [List.find?, hk, hv, huv.2]
    · have hv : ¬ v.id = k := fun e => hk (huv.1.symm.trans e)
      rw [List.find?_cons_of_neg _ (by simpa using hv),
        List.find?_cons_of_neg _ (by simpa using hk)]
      exact ih

theorem statementsOf_scoreAdded (T : CaseTables) (levels : List Level) (userId : Int)
    (reqs : List SubmitRequest) :
    ((reqs.flatMap (statementsOf T levels)).map (scoreAdded userId)).sum
      = (reqs.map (awarded T levels userId)).sum := by
  induction reqs with
  | nil => rfl
  | cons r rs ih =>
    simp only [List.flatMap_cons, List.map_append, List.sum_append, ih, List.map_cons,
      List.sum_cons]
    congr 1
    unfold statementsOf awarded
    cases getLevel levels r.language r.levelNumber with
    | none => simp
    | some lvl =>
      by_cases hc : isCorrect T r.solution lvl.solution = true
      · simp [hc, scoreAdded]
      · simp [hc]

theorem scoreOf_runSubmits (T : CaseTables) (reqs : List SubmitRequest) (userId : Int) :
    ∀ db : Db, scoreOf (runSubmits T db reqs) userId =
      (scoreOf db userId).map (· + (reqs.map (awarded T db.levels userId)).sum) := by
  induction reqs with
  | nil => intro db; simp [runSubmits]
  | cons r rs ih =>
    intro db
    rw [runSubmits_cons, ih, scoreOf_submit, submit_levels]
    cases scoreOf db userId with
    | none => rfl
    | some v => simp [add_assoc]

/-- C23 as amended: the ledger write and the score increment of an accepted
submission are two statements and no transactional unit.  When the statements
of any concurrent requests have all been executed, in any order whatever, the
cached score of a user is the score before plus the points of the level for
every accepted submission of the user, which is the score that the same
requests leave when served one after the other; k duplicates of a request add
k times what one of them adds. -/
theorem any_statement_order_score (T : CaseTables) (db : Db) (reqs : List SubmitRequest)
    (stmts : List Statement) (userId : Int)
    (horder : stmts.Perm (reqs.flatMap (statementsOf T db.levels))) :
    scoreOf (runStatements db stmts) userId =
      (scoreOf db userId).map (· + (reqs.map (awarded T db.levels userId)).sum) ∧
    scoreOf (runStatements db stmts) userId = scoreOf (runSubmits T db reqs) userId ∧
    (∀ (k : Nat) (req : SubmitRequest), reqs = List.replicate k req →
      scoreOf (runStatements db stmts) userId =
        (scoreOf db userId).map (· + k * awarded T db.levels userId req)) := by
  have h1 : scoreOf (runStatements db stmts) userId =
      (scoreOf db userId).map (· + (reqs.map (awarded T db.levels userId)).sum) := by
    unfold scoreOf
    rw [scoreOf_of_forall₂ (fun i => (stmts.map (scoreAdded i)).sum) userId _ _
      (runStatements_users stmts db)]
    rw [(horder.map (scoreAdded userId)).sum_eq, statementsOf_scoreAdded]
  refine ⟨h1, ?_, ?_⟩
  · rw [h1, scoreOf_runSubmits]
  · intro k req hk
    rw [h1, hk]
    simp [List.map_replicate, List.sum_replicate]

/-- Witness of the amended C23: two duplicate accepted submissions of
(html, 1) whose statements are executed with both updates first and both
inserts last leave the score 20, twice the 10 points of the level. -/
theorem any_statement_order_score_witness :
    scoreOf demoDb 1 = some 0 ∧
    scoreOf (runStatements demoDb
      [.update 10 1, .update 10 1, .insert 1 "html" 1 10 1, .insert 1 "html" 1 10 1]) 1
      = (some 0).map (· + ((2 : Nat) : Int) * awarded sampleTables demoDb.levels 1 helloRequest) ∧
    awarded sampleTables demoDb.levels 1 helloRequest = 10 ∧
    scoreOf (runStatements demoDb
      [.update 10 1, .update 10 1, .insert 1 "html" 1 10 1, .insert 1 "html" 1 10 1]) 1
      = some 20 :=
  ⟨by decide,
   (by decide : scoreOf demoDb 1 = some 0) ▸
     (any_statement_order_score sampleTables demoDb [helloRequest, helloRequest]
       [.update 10 1, .update 10 1, .insert 1 "html" 1 10 1, .insert 1 "html" 1 10 1] 1
       (by decide)).2.2 2 helloRequest rfl,
   by decide, by decide⟩

end CodeAdventure
